import Mathlib

/-!
Verification of the quiz session engine of `src/bot.py`.

The Python source is shallowly embedded below.  Global mutable state
(`QUIZ_RUNNING`, `QUIZ_PAUSED`, `group_state`, `leaderboard`,
`results_history`) becomes an explicit `BotState` record threaded through
the operations.  Python dicts (which preserve insertion order and update
values in place) are modelled by association lists with the operations
`lookupA` / `setA` / `removeA`.  Timestamps are natural-number seconds;
the float scores `MARK_CORRECT = 1.0` and `MARK_WRONG = -0.33` are
modelled as the exact rationals `1` and `-33/100`.  Message transport
(`send_msg`, `answer_callback`, `edit_message_text`, ...) and the
authorization checks (`is_admin`) are external collaborators and are
abstracted away; only the state transitions and returned outcome kinds
are modelled.  `random.shuffle` is modelled by an explicit `shuffle`
parameter, assumed (where needed) to permute its input.
-/

namespace DakuBot

/-- Default marking constants of `bot.py` (lines 146-147), as exact rationals. -/
def MARK_CORRECT : ℚ := 1

/-- `MARK_WRONG = -0.33` of `bot.py`, as the exact rational `-33/100`. -/
def MARK_WRONG : ℚ := -33/100

/-- One question of the question bank (`QUESTIONS` entries): 0-based
`correct` index, four `options`. -/
structure Question where
  id : Int
  topic : String
  question : String
  options : List String
  correct : Nat
  explanation : String
deriving DecidableEq

/-- Per-participant session tally, the `user_stats` values of a group state. -/
structure UserStats where
  correct : Nat
  wrong : Nat
  attempted : Nat
deriving DecidableEq

/-- One cumulative leaderboard entry (`{"name": ..., "score": ...}`). -/
structure BoardEntry where
  name : String
  score : ℚ
deriving DecidableEq

/-- One results-history record (`records_to_add` entries in
`send_user_summaries`). -/
structure HistRecord where
  user_id : Nat
  name : String
  score : ℚ
  ts : Nat
  topic : String
deriving DecidableEq

/-- The per-room session state (`group_state[chat_id]` dict of `bot.py`). -/
structure GroupState where
  order : List Nat
  q_index : Nat
  start : Nat
  answers : List Nat
  user_stats : List (Nat × UserStats)
  msg_id : Option Nat
  topic : String
  last_timer_update : Nat
deriving DecidableEq

/-- The global mutable state of `bot.py`: the two global quiz-master flags
plus the three room-keyed dicts. -/
structure BotState where
  quizRunning : Bool
  quizPaused : Bool
  group_state : List (Int × GroupState)
  leaderboard : List (Int × List (Nat × BoardEntry))
  results_history : List (Int × List HistRecord)
deriving DecidableEq

section AssocList

variable {α : Type} {β : Type} [DecidableEq α]

/-- `d.get(k)` on a Python dict, modelled on an association list. -/
def lookupA : List (α × β) → α → Option β
  | [], _ => none
  | (k', v) :: t, k => if k' = k then some v else lookupA t k

/-- `d[k] = v` on a Python dict: replace in place if present (keeping the
insertion position), else append. -/
def setA : List (α × β) → α → β → List (α × β)
  | [], k, v => [(k, v)]
  | (k', v') :: t, k, v => if k' = k then (k', v) :: t else (k', v') :: setA t k v

/-- `d.pop(k, None)` on a Python dict. -/
def removeA : List (α × β) → α → List (α × β)
  | [], _ => []
  | (k', v') :: t, k => if k' = k then t else (k', v') :: removeA t k

@[simp] theorem lookupA_nil (k : α) : lookupA ([] : List (α × β)) k = none := rfl

theorem lookupA_setA_self (l : List (α × β)) (k : α) (v : β) :
    lookupA (setA l k v) k = some v := by
  induction l with
  | nil => simp [setA, lookupA]
  | cons p t ih =>
    obtain ⟨k', v'⟩ := p
    by_cases h : k' = k
    · simp [setA, lookupA, h]
    · simp [setA, lookupA, h, ih]

theorem lookupA_setA_ne (l : List (α × β)) (k k' : α) (v : β) (h : k' ≠ k) :
    lookupA (setA l k v) k' = lookupA l k' := by
  have hk : k ≠ k' := Ne.symm h
  induction l with
  | nil => simp [setA, lookupA, hk]
  | cons p t ih =>
    obtain ⟨a, b⟩ := p
    by_cases ha : a = k
    · subst ha
      simp [setA, lookupA, hk]
    · simp only [setA, if_neg ha, lookupA]
      by_cases hb : a = k'
      · simp [hb]
      · simp [hb, ih]

theorem lookupA_removeA_ne (l : List (α × β)) (k k' : α) (h : k' ≠ k) :
    lookupA (removeA l k) k' = lookupA l k' := by
  have hk : k ≠ k' := Ne.symm h
  induction l with
  | nil => simp [removeA]
  | cons p t ih =>
    obtain ⟨a, b⟩ := p
    by_cases ha : a = k
    · subst ha
      simp [removeA, lookupA, hk]
    · simp only [removeA, if_neg ha, lookupA]
      by_cases hb : a = k'
      · simp [hb]
      · simp [hb, ih]

theorem setA_ne_nil (l : List (α × β)) (k : α) (v : β) : setA l k v ≠ [] := by
  cases l with
  | nil => simp [setA]
  | cons p t =>
    obtain ⟨a, b⟩ := p
    by_cases h : a = k <;> simp [setA, h]

theorem mem_keys_setA {l : List (α × β)} {k a : α} {v : β}
    (h : a ∈ (setA l k v).map Prod.fst) : a ∈ l.map Prod.fst ∨ a = k := by
  induction l with
  | nil => simp [setA] at h; simp [h]
  | cons p t ih =>
    obtain ⟨k', v'⟩ := p
    by_cases hk : k' = k
    · simp only [setA, if_pos hk, List.map_cons, List.mem_cons] at h ⊢
      tauto
    · simp only [setA, if_neg hk, List.map_cons, List.mem_cons] at h ⊢
      rcases h with h | h
      · tauto
      · rcases ih h with h' | h' <;> tauto

theorem keys_nodup_setA {l : List (α × β)} {k : α} {v : β}
    (h : (l.map Prod.fst).Nodup) : ((setA l k v).map Prod.fst).Nodup := by
  induction l with
  | nil => simp [setA]
  | cons p t ih =>
    obtain ⟨k', v'⟩ := p
    simp only [List.map_cons, List.nodup_cons] at h
    by_cases hk : k' = k
    · simp only [setA, if_pos hk, List.map_cons, List.nodup_cons]
      exact h
    · simp only [setA, if_neg hk, List.map_cons, List.nodup_cons]
      refine ⟨fun hmem => ?_, ih h.2⟩
      rcases mem_keys_setA hmem with h' | h'
      · exact h.1 h'
      · exact hk h'

end AssocList

/-- Python list indexing `l[i]` (with negative-index support), returning
`none` exactly when Python would raise `IndexError`. -/
def pyGet (l : List String) (i : Int) : Option String :=
  if 0 ≤ i then l.get? i.toNat
  else if 0 ≤ i + l.length then l.get? (i + (l.length : Int)).toNat
  else none

/-- The outcome of `handle_answer` as signalled back through
`answer_callback` / the private DM.  `internalError` marks the branch where
`QUESTIONS[order[q_idx]]` would raise in Python (unreachable for
well-formed states).  In `accepted`, `chosenText` is
`q.options[selected]`: `none` models the `IndexError` Python raises while
building the DM text, after all state mutations are already committed. -/
inductive SubmitResult
  | noActiveSession
  | sessionPaused
  | timeExpired
  | quizFinished
  | internalError
  | staleQuestion
  | duplicateAnswer
  | accepted (isRight : Bool) (explanation : String) (chosenText : Option String)
deriving DecidableEq

/-- `true` exactly on the `accepted` outcome. -/
def SubmitResult.isAccepted : SubmitResult → Bool
  | .accepted _ _ _ => true
  | _ => false

/-- The state produced by the acceptance branch of `handle_answer`
(lines 891-919 of `bot.py`): update the session tally, update (or create
with score `0`) the cumulative leaderboard entry, record the participant
in the answer ledger. -/
def acceptState (bs : BotState) (chat_id : Int) (user_id : Nat) (user_name : String)
    (st : GroupState) (q : Question) (selected : Int) : BotState :=
  let is_right : Bool := selected = (q.correct : Int)
  let u := (lookupA st.user_stats user_id).getD ⟨0, 0, 0⟩
  let u' : UserStats :=
    ⟨if is_right then u.correct + 1 else u.correct,
     if is_right then u.wrong else u.wrong + 1,
     u.attempted + 1⟩
  let board := (lookupA bs.leaderboard chat_id).getD []
  let prev := (lookupA board user_id).getD ⟨user_name, 0⟩
  let prev' : BoardEntry := ⟨user_name, prev.score + if is_right then MARK_CORRECT else MARK_WRONG⟩
  let st' := { st with user_stats := setA st.user_stats user_id u',
                       answers := st.answers ++ [user_id] }
  { bs with group_state := setA bs.group_state chat_id st',
            leaderboard := setA bs.leaderboard chat_id (setA board user_id prev') }

/-- `handle_answer` of `bot.py` (lines 838-932), after the transport-level
callback parsing: the submitted `qid` and `selected` arrive as integers.
The guards are checked in source order: session existence, the global
paused flag, the time limit (`elapsed > QUESTION_TIME` rejects), the
exhausted-session guard (`q_idx >= len(order)`), the stale-question check
and the duplicate check; then the acceptance branch applies. -/
def handle_answer (questions : List Question) (qtime : Nat) (bs : BotState)
    (chat_id : Int) (user_id : Nat) (user_name : String)
    (qid : Int) (selected : Int) (now : Nat) : BotState × SubmitResult :=
  match lookupA bs.group_state chat_id with
  | none => (bs, .noActiveSession)
  | some st =>
    if bs.quizPaused then (bs, .sessionPaused)
    else if st.start + qtime < now then (bs, .timeExpired)
    else if st.order.length ≤ st.q_index then (bs, .quizFinished)
    else
      match st.order[st.q_index]? with
      | none => (bs, .internalError)
      | some i =>
        match questions[i]? with
        | none => (bs, .internalError)
        | some q =>
          if qid ≠ q.id then (bs, .staleQuestion)
          else if user_id ∈ st.answers then (bs, .duplicateAnswer)
          else
            (acceptState bs chat_id user_id user_name st q selected,
             .accepted (selected = (q.correct : Int)) q.explanation (pyGet q.options selected))

/-- The session state of a room, if any (`group_state.get(chat_id)`). -/
def groupOf (bs : BotState) (chat_id : Int) : Option GroupState :=
  lookupA bs.group_state chat_id

/-- The cumulative leaderboard of a room (`leaderboard.get(chat_id, {})`). -/
def boardOf (bs : BotState) (chat_id : Int) : List (Nat × BoardEntry) :=
  (lookupA bs.leaderboard chat_id).getD []

/-- The cumulative score of a participant in a room, `0` when absent. -/
def scoreOf (bs : BotState) (chat_id : Int) (user_id : Nat) : ℚ :=
  ((lookupA (boardOf bs chat_id) user_id).map BoardEntry.score).getD 0

/-- The session tally of a participant, zeroes when absent. -/
def statsOfSt (st : GroupState) (user_id : Nat) : UserStats :=
  (lookupA st.user_stats user_id).getD ⟨0, 0, 0⟩

/-- The results history of a room (`results_history.get(chat_id, [])`). -/
def historyOf (bs : BotState) (chat_id : Int) : List HistRecord :=
  (lookupA bs.results_history chat_id).getD []

/-- `send_question` of `bot.py` (lines 704-737): a no-op when paused or not
running, when the room has no session, or when the order is exhausted;
otherwise it (re)sets the question clock and clears the answer ledger.
The transport result stored in `msg_id` is abstracted to `none`. -/
def send_question (bs : BotState) (chat_id : Int) (now : Nat) : BotState :=
  if bs.quizPaused || !bs.quizRunning then bs
  else
    match lookupA bs.group_state chat_id with
    | none => bs
    | some st =>
      if st.order.length ≤ st.q_index then bs
      else
        let st' := { st with start := now, last_timer_update := 0, answers := [], msg_id := none }
        { bs with group_state := setA bs.group_state chat_id st' }

/-- The history records built by `send_user_summaries` (lines 949-984): one
per participant of the session tally, scored
`correct * MARK_CORRECT + wrong * MARK_WRONG`, named from the cumulative
board (default `str(user_id)`). -/
def session_records (board : List (Nat × BoardEntry)) (st : GroupState) (now : Nat) :
    List HistRecord :=
  st.user_stats.map fun p =>
    { user_id := p.1
      name := match lookupA board p.1 with
              | some e => e.name
              | none => toString p.1
      score := (p.2.correct : ℚ) * MARK_CORRECT + (p.2.wrong : ℚ) * MARK_WRONG
      ts := now
      topic := st.topic }

/-- `send_user_summaries` of `bot.py` (lines 936-989): appends the
session records to the results history of the room (only when there is at
least one record, matching the `if records_to_add:` guard).  The private
summary messages are transport side effects and are not modelled. -/
def send_user_summaries (bs : BotState) (chat_id : Int) (now : Nat) : BotState :=
  match lookupA bs.group_state chat_id with
  | none => bs
  | some st =>
    let records := session_records ((lookupA bs.leaderboard chat_id).getD []) st now
    if records.isEmpty then bs
    else
      let hist' := setA bs.results_history chat_id
        ((lookupA bs.results_history chat_id).getD [] ++ records)
      { bs with results_history := hist' }

/-- `finish_question` of `bot.py` (lines 802-834): advances `q_index`;
then either emits the next question or, once the order is exhausted, runs
the summary/history step.  The "time is up" disclosure sent to the room is
a transport side effect and is not modelled.  Note that the session state
is never removed here. -/
def finish_question (bs : BotState) (chat_id : Int) (now : Nat) : BotState :=
  match lookupA bs.group_state chat_id with
  | none => bs
  | some st =>
    if st.order.length ≤ st.q_index then bs
    else
      let st' := { st with q_index := st.q_index + 1 }
      let bs' := { bs with group_state := setA bs.group_state chat_id st' }
      if st'.q_index < st.order.length then send_question bs' chat_id now
      else send_user_summaries bs' chat_id now

/-- One iteration of the loop body of `timeout_check` (lines 785-799) for
a snapshot entry: skipped when the global flags forbid it or the snapshot
has a zero start time; otherwise the question is finished once
`now - start >= QUESTION_TIME`.  The progress-bar refresh
(`update_timer_for_chat`) is a pure transport side effect. -/
def timeout_step (qtime : Nat) (now : Nat) (acc : BotState) (entry : Int × GroupState) :
    BotState :=
  if acc.quizPaused || !acc.quizRunning then acc
  else if entry.2.start = 0 then acc
  else if entry.2.start + qtime ≤ now then finish_question acc entry.1 now
  else acc

/-- `timeout_check` of `bot.py`: folds `timeout_step` over a snapshot of
the room table (`list(group_state.items())`). -/
def timeout_check (qtime : Nat) (bs : BotState) (now : Nat) : BotState :=
  bs.group_state.foldl (timeout_step qtime now) bs

/-- Outcomes of the lifecycle commands `quiz_pause` / `quiz_resume` /
`quiz_stop` (the admin check is an external collaborator and is not
modelled). -/
inductive LifecycleResult
  | noActiveSession
  | alreadyPaused
  | notPaused
  | ok
deriving DecidableEq

/-- `quiz_pause` of `bot.py` (lines 562-575): guards on the GLOBAL
`QUIZ_RUNNING` / `QUIZ_PAUSED` flags, then sets the GLOBAL paused flag. -/
def quiz_pause (bs : BotState) : BotState × LifecycleResult :=
  if !bs.quizRunning then (bs, .noActiveSession)
  else if bs.quizPaused then (bs, .alreadyPaused)
  else ({ bs with quizPaused := true }, .ok)

/-- `quiz_resume` of `bot.py` (lines 578-588). -/
def quiz_resume (bs : BotState) : BotState × LifecycleResult :=
  if !bs.quizPaused then (bs, .notPaused)
  else ({ bs with quizPaused := false }, .ok)

/-- `quiz_stop` of `bot.py` (lines 591-603): clears BOTH global flags and
removes only the issuing room from the room table. -/
def quiz_stop (bs : BotState) (chat_id : Int) : BotState × LifecycleResult :=
  if !bs.quizRunning then (bs, .noActiveSession)
  else
    ({ bs with
        quizRunning := false
        quizPaused := false
        group_state := removeA bs.group_state chat_id }, .ok)

/-- Outcomes of `start_quiz` (the admin check is external). -/
inductive StartResult
  | noQuestions
  | alreadyRunning
  | noQuestionsForTopic
  | notEnough
  | started
deriving DecidableEq

/-- The `desired_map` table of `start_quiz` (line 646) together with the
default-to-`short` fallback (lines 647-649). -/
def desired_map (mode : String) : Nat :=
  if mode = "short" then 5
  else if mode = "long" then 15
  else if mode = "full" then 25
  else 5

/-- The candidate indices for a normalized topic filter (lines 631-634):
positions of questions whose topic matches case-insensitively after
trimming. -/
def candidate_indices (questions : List Question) (tf : String) : List Nat :=
  (List.range questions.length).filter fun i =>
    match questions.get? i with
    | some q => q.topic.trim.toLower = tf
    | none => false

/-- The session-creation tail of `start_quiz` (lines 646-694): resolve the
target count, clamp to the candidates, shuffle and truncate, set the
global flags, install the fresh session state and emit the first
question. -/
def start_create (shuffle : List Nat → List Nat) (bs : BotState) (chat_id : Int)
    (indices_all : List Nat) (mode : String) (label : String) (now : Nat) :
    BotState × StartResult :=
  let desired := desired_map mode
  let count := min desired indices_all.length
  if count = 0 then (bs, .notEnough)
  else
    let order := (shuffle indices_all).take count
    let st0 : GroupState :=
      { order := order, q_index := 0, start := now, answers := [],
        user_stats := [], msg_id := none, topic := label, last_timer_update := 0 }
    let bs' := { bs with
      quizRunning := true
      quizPaused := false
      group_state := setA bs.group_state chat_id st0 }
    (send_question bs' chat_id now, .started)

/-- `start_quiz` of `bot.py` (lines 605-694), after the admin check and
the `parse_quiz_args` step: `topic_arg` and `mode` arrive parsed.
`random.shuffle` is the explicit `shuffle` parameter.  Guards in source
order: empty question bank, a session still in progress
(`q_index < len(order)`), then a topic filter with zero candidates. -/
def start_quiz (questions : List Question) (shuffle : List Nat → List Nat)
    (bs : BotState) (chat_id : Int) (topic_arg : Option String) (mode : String)
    (now : Nat) : BotState × StartResult :=
  if questions.length = 0 then (bs, .noQuestions)
  else
    let blocked : Bool :=
      match lookupA bs.group_state chat_id with
      | some st => st.q_index < st.order.length
      | none => false
    if blocked then (bs, .alreadyRunning)
    else
      match topic_arg with
      | some t =>
        let indices_all := candidate_indices questions t.trim.toLower
        if indices_all.length = 0 then (bs, .noQuestionsForTopic)
        else start_create shuffle bs chat_id indices_all mode t now
      | none =>
        start_create shuffle bs chat_id (List.range questions.length) mode "Mixed" now

/-- The outcome shape of `build_time_leaderboard` (lines 1013-1056): the
"nobody took a quiz yet" message, the "nothing inside the window" message,
or the rendered top-20 board. -/
inductive TimeBoard
  | noHistory
  | nothingInWindow
  | board (entries : List BoardEntry)
deriving DecidableEq

/-- One aggregation step of `build_time_leaderboard`: add the record score
into the per-participant sum (created at `0`), latest name wins. -/
def agg_step (agg : List (Nat × BoardEntry)) (r : HistRecord) : List (Nat × BoardEntry) :=
  let data := (lookupA agg r.user_id).getD ⟨r.name, 0⟩
  setA agg r.user_id ⟨r.name, data.score + r.score⟩

/-- The window filter of `build_time_leaderboard`: a record is kept when
there is no window (`days is None`) or `ts ≥ now - days*86400`
(the code skips records with `ts < cutoff`). -/
def in_window (now : Nat) (days : Option Nat) (r : HistRecord) : Bool :=
  match days with
  | none => true
  | some d => now - d * 86400 ≤ r.ts

/-- The descending-score comparison used by
`sorted(..., key=lambda x: x["score"], reverse=True)`. -/
def board_le (a b : BoardEntry) : Prop := b.score ≤ a.score

instance : DecidableRel board_le := fun a b => inferInstanceAs (Decidable (b.score ≤ a.score))

instance : IsTotal BoardEntry board_le := ⟨fun a b => le_total b.score a.score⟩

instance : IsTrans BoardEntry board_le := ⟨fun _ _ _ h1 h2 => le_trans h2 h1⟩

/-- `build_time_leaderboard` of `bot.py` (lines 1013-1056), with the
rendered strings abstracted into the three `TimeBoard` shapes.  Python
uses the stable Timsort; `List.insertionSort` with `board_le` is likewise
a stable descending sort, so the entry order agrees.  (In the source all
stored timestamps are numeric, so the `isinstance` skip never fires.) -/
def build_time_leaderboard (bs : BotState) (chat_id : Int) (days : Option Nat)
    (now : Nat) : TimeBoard :=
  let hist := (lookupA bs.results_history chat_id).getD []
  if hist.isEmpty then .noHistory
  else
    let agg := (hist.filter (in_window now days)).foldl agg_step []
    if agg.isEmpty then .nothingInWindow
    else .board ((List.insertionSort board_le (agg.map Prod.snd)).take 20)

/-! ### Characterization lemmas for `handle_answer` -/

/-- Every non-acceptance branch of `handle_answer` returns the input state
unchanged. -/
theorem handle_answer_frame (questions : List Question) (qtime : Nat) (bs : BotState)
    (cid : Int) (uid : Nat) (un : String) (qid sel : Int) (now : Nat) :
    (handle_answer questions qtime bs cid uid un qid sel now).2.isAccepted = true ∨
      (handle_answer questions qtime bs cid uid un qid sel now).1 = bs := by
  unfold handle_answer
  repeat' split
  all_goals simp [SubmitResult.isAccepted]

/-- The acceptance branch of `handle_answer`, explicitly. -/
theorem handle_answer_accept (questions : List Question) (qtime : Nat) (bs : BotState)
    (cid : Int) (uid : Nat) (un : String) (qid sel : Int) (now : Nat)
    (st : GroupState) (i : Nat) (q : Question)
    (hst : lookupA bs.group_state cid = some st)
    (hp : bs.quizPaused = false)
    (ht : ¬ st.start + qtime < now)
    (hfin : ¬ st.order.length ≤ st.q_index)
    (hi : st.order[st.q_index]? = some i)
    (hq : questions[i]? = some q)
    (hqid : qid = q.id)
    (hdup : uid ∉ st.answers) :
    handle_answer questions qtime bs cid uid un qid sel now =
      (acceptState bs cid uid un st q sel,
       .accepted (sel = (q.correct : Int)) q.explanation (pyGet q.options sel)) := by
  unfold handle_answer
  rw [hst]
  simp [hp, ht, hfin, hi, hq, hqid, hdup]

/-- The duplicate branch of `handle_answer`, explicitly. -/
theorem handle_answer_duplicate (questions : List Question) (qtime : Nat) (bs : BotState)
    (cid : Int) (uid : Nat) (un : String) (qid sel : Int) (now : Nat)
    (st : GroupState) (i : Nat) (q : Question)
    (hst : lookupA bs.group_state cid = some st)
    (hp : bs.quizPaused = false)
    (ht : ¬ st.start + qtime < now)
    (hfin : ¬ st.order.length ≤ st.q_index)
    (hi : st.order[st.q_index]? = some i)
    (hq : questions[i]? = some q)
    (hqid : qid = q.id)
    (hdup : uid ∈ st.answers) :
    handle_answer questions qtime bs cid uid un qid sel now = (bs, .duplicateAnswer) := by
  unfold handle_answer
  rw [hst]
  simp [hp, ht, hfin, hi, hq, hqid, hdup]

/-- After an acceptance, the participant is in the answer ledger of the
room session. -/
theorem handle_answer_mem_after (questions : List Question) (qtime : Nat) (bs : BotState)
    (cid : Int) (uid : Nat) (un : String) (qid sel : Int) (now : Nat)
    (hacc : (handle_answer questions qtime bs cid uid un qid sel now).2.isAccepted = true) :
    ∀ st2, lookupA (handle_answer questions qtime bs cid uid un qid sel now).1.group_state cid
      = some st2 → uid ∈ st2.answers := by
  intro st2 h2
  cases hr : handle_answer questions qtime bs cid uid un qid sel now with
  | mk b res =>
    rw [hr] at hacc h2
    unfold handle_answer at hr
    repeat' split at hr
    all_goals cases hr
    all_goals simp [SubmitResult.isAccepted] at hacc
    simp only [acceptState, lookupA_setA_self, Option.some.injEq] at h2
    subst h2
    simp

/-- If the participant is already in the ledger, no call is accepted and
the state is unchanged. -/
theorem handle_answer_answered (questions : List Question) (qtime : Nat) (bs : BotState)
    (cid : Int) (uid : Nat) (un : String) (qid sel : Int) (now : Nat)
    (hmem : ∀ st, lookupA bs.group_state cid = some st → uid ∈ st.answers) :
    (handle_answer questions qtime bs cid uid un qid sel now).2.isAccepted = false ∧
      (handle_answer questions qtime bs cid uid un qid sel now).1 = bs := by
  unfold handle_answer
  repeat' split
  all_goals simp_all [SubmitResult.isAccepted]

/-- The board entry score defaulted the way the acceptance branch reads it
agrees with `scoreOf`. -/
theorem getD_score_eq_scoreOf (bs : BotState) (cid : Int) (uid : Nat) (un : String) :
    ((lookupA ((lookupA bs.leaderboard cid).getD []) uid).getD ⟨un, 0⟩).score
      = scoreOf bs cid uid := by
  unfold scoreOf boardOf
  cases lookupA ((lookupA bs.leaderboard cid).getD []) uid <;> simp

/-- C2: whenever `submit` accepts an answer it adds the participant to the
answer ledger (`admittedAnswers`) of the current question, increments
`attempted` and exactly one of `correct` (when the selected index equals
the correct index of the question) or `wrong`, adds `MARK_CORRECT`
respectively `MARK_WRONG` to the Score Table entry of the participant —
created with score `0` when absent — and returns whether the answer was
correct together with the explanation text. -/
theorem submit_acceptance_effects
    (questions : List Question) (qtime : Nat) (bs : BotState)
    (cid : Int) (uid : Nat) (un : String) (qid sel : Int) (now : Nat)
    (st : GroupState) (i : Nat) (q : Question)
    (hst : groupOf bs cid = some st)
    (hp : bs.quizPaused = false)
    (ht : ¬ st.start + qtime < now)
    (hfin : ¬ st.order.length ≤ st.q_index)
    (hi : st.order[st.q_index]? = some i)
    (hq : questions[i]? = some q)
    (hqid : qid = q.id)
    (hdup : uid ∉ st.answers) :
    (handle_answer questions qtime bs cid uid un qid sel now).2 =
        .accepted (sel = (q.correct : Int)) q.explanation (pyGet q.options sel) ∧
    (∃ st2, groupOf (handle_answer questions qtime bs cid uid un qid sel now).1 cid = some st2 ∧
        st2.answers = st.answers ++ [uid] ∧
        statsOfSt st2 uid =
          ⟨(statsOfSt st uid).correct + (if sel = (q.correct : Int) then 1 else 0),
           (statsOfSt st uid).wrong + (if sel = (q.correct : Int) then 0 else 1),
           (statsOfSt st uid).attempted + 1⟩ ∧
        (∀ u2, u2 ≠ uid → statsOfSt st2 u2 = statsOfSt st u2)) ∧
    lookupA (boardOf (handle_answer questions qtime bs cid uid un qid sel now).1 cid) uid =
      some ⟨un, scoreOf bs cid uid + (if sel = (q.correct : Int) then MARK_CORRECT else MARK_WRONG)⟩ := by
  rw [handle_answer_accept questions qtime bs cid uid un qid sel now st i q hst hp ht hfin
    hi hq hqid hdup]
  simp only [acceptState, groupOf, boardOf, statsOfSt, scoreOf]
  refine ⟨by trivial, ⟨_, lookupA_setA_self .., rfl, ?_, ?_⟩, ?_⟩
  · rw [lookupA_setA_self]
    by_cases hr : sel = (q.correct : Int) <;> simp [hr]
  · intro u2 h2
    rw [lookupA_setA_ne _ _ _ _ h2]
  · rw [lookupA_setA_self]
    simp only [Option.getD_some]
    rw [lookupA_setA_self]
    cases hb : lookupA ((lookupA bs.leaderboard cid).getD []) uid <;>
      by_cases hr : sel = (q.correct : Int) <;> simp [hb, hr]

/-- C10: `submit` performs no range check on the selected option index.
An otherwise-admissible submission whose index lies outside `[0, 3]` is
accepted: the participant is marked as having answered, `attempted` and
`wrong` are incremented, `MARK_WRONG` is added to the Score Table entry —
and all of this is committed in the same step that produces the
disclosure payload, whose chosen-option text is `none` exactly where
the Python source raises `IndexError` while building the DM text
(`q.options[selected]` with `selected > 3` on a 4-option question). -/
theorem submit_no_range_check
    (questions : List Question) (qtime : Nat) (bs : BotState)
    (cid : Int) (uid : Nat) (un : String) (qid sel : Int) (now : Nat)
    (st : GroupState) (i : Nat) (q : Question)
    (hst : groupOf bs cid = some st)
    (hp : bs.quizPaused = false)
    (ht : ¬ st.start + qtime < now)
    (hfin : ¬ st.order.length ≤ st.q_index)
    (hi : st.order[st.q_index]? = some i)
    (hq : questions[i]? = some q)
    (hqid : qid = q.id)
    (hdup : uid ∉ st.answers)
    (hcor : q.correct ≤ 3)
    (hrange : sel < 0 ∨ 3 < sel) :
    (handle_answer questions qtime bs cid uid un qid sel now).2 =
        .accepted false q.explanation (pyGet q.options sel) ∧
    (∃ st2, groupOf (handle_answer questions qtime bs cid uid un qid sel now).1 cid = some st2 ∧
        st2.answers = st.answers ++ [uid] ∧
        statsOfSt st2 uid =
          ⟨(statsOfSt st uid).correct,
           (statsOfSt st uid).wrong + 1,
           (statsOfSt st uid).attempted + 1⟩) ∧
    lookupA (boardOf (handle_answer questions qtime bs cid uid un qid sel now).1 cid) uid =
      some ⟨un, scoreOf bs cid uid + MARK_WRONG⟩ ∧
    (q.options.length = 4 → 3 < sel → pyGet q.options sel = none) := by
  have hne : ¬ sel = (q.correct : Int) := by omega
  obtain ⟨h1, ⟨st2, hst2, hans, hstats, _⟩, hboard⟩ :=
    submit_acceptance_effects questions qtime bs cid uid un qid sel now st i q hst hp ht hfin
      hi hq hqid hdup
  refine ⟨?_, ⟨st2, hst2, hans, ?_⟩, ?_, ?_⟩
  · rw [h1]
    simp [hne]
  · rw [hstats]
    simp [hne]
  · rw [hboard]
    simp [hne]
  · intro hlen hsel
    unfold pyGet
    rw [if_pos (by omega)]
    exact List.get?_eq_none.mpr (by omega)

/-! ### Sequences of identical submissions (claim C1) -/

/-- Process a sequence of `submit` calls with identical
`(roomId, questionId, participantId)` (and identical selected option) at
the given timestamps, strictly sequentially — the single-threaded
dispatch discipline of the main polling loop. -/
def submitSeq (questions : List Question) (qtime : Nat) (cid : Int) (uid : Nat)
    (un : String) (qid sel : Int) : BotState → List Nat → BotState × List SubmitResult
  | bs, [] => (bs, [])
  | bs, t :: ts =>
    let r := handle_answer questions qtime bs cid uid un qid sel t
    let rest := submitSeq questions qtime cid uid un qid sel r.1 ts
    (rest.1, r.2 :: rest.2)

/-- Once the participant is in the ledger, a whole sequence of further
identical submissions yields no acceptance and leaves the state alone. -/
theorem submitSeq_none_when_answered (questions : List Question) (qtime : Nat) (cid : Int)
    (uid : Nat) (un : String) (qid sel : Int) :
    ∀ (ts : List Nat) (bs : BotState),
      (∀ st, lookupA bs.group_state cid = some st → uid ∈ st.answers) →
      (submitSeq questions qtime cid uid un qid sel bs ts).2.countP
          (fun r => r.isAccepted) = 0 ∧
        (submitSeq questions qtime cid uid un qid sel bs ts).1 = bs := by
  intro ts
  induction ts with
  | nil => intro bs hmem; simp [submitSeq]
  | cons t ts ih =>
    intro bs hmem
    obtain ⟨hno, hframe⟩ :=
      handle_answer_answered questions qtime bs cid uid un qid sel t hmem
    obtain ⟨ihc, ihs⟩ := ih (handle_answer questions qtime bs cid uid un qid sel t).1
      (by rw [hframe]; exact hmem)
    constructor
    · simp [submitSeq, List.countP_cons, hno, ihc]
    · show (submitSeq questions qtime cid uid un qid sel
        (handle_answer questions qtime bs cid uid un qid sel t).1 ts).1 = bs
      rw [ihs, hframe]

/-- At most one call of any identical-submission sequence is ever
accepted, from any starting state. -/
theorem submitSeq_atMostOne (questions : List Question) (qtime : Nat) (cid : Int)
    (uid : Nat) (un : String) (qid sel : Int) :
    ∀ (ts : List Nat) (bs : BotState),
      (submitSeq questions qtime cid uid un qid sel bs ts).2.countP
        (fun r => r.isAccepted) ≤ 1 := by
  intro ts
  induction ts with
  | nil => intro bs; simp [submitSeq]
  | cons t ts ih =>
    intro bs
    by_cases hacc : (handle_answer questions qtime bs cid uid un qid sel t).2.isAccepted = true
    · have hmem := handle_answer_mem_after questions qtime bs cid uid un qid sel t hacc
      have h0 := (submitSeq_none_when_answered questions qtime cid uid un qid sel ts
        (handle_answer questions qtime bs cid uid un qid sel t).1 hmem).1
      simp [submitSeq, List.countP_cons, hacc, h0]
    · simp only [Bool.not_eq_true] at hacc
      have := ih (handle_answer questions qtime bs cid uid un qid sel t).1
      simp [submitSeq, List.countP_cons, hacc]
      omega

/-- From an admissible state, every identical submission after the first
is rejected as `duplicateAnswer` and the state stays at the
first-acceptance state. -/
theorem submitSeq_tail_dup (questions : List Question) (qtime : Nat) (cid : Int)
    (uid : Nat) (un : String) (qid sel : Int) (st : GroupState) (i : Nat) (q : Question)
    (hqid : qid = q.id) :
    ∀ (ts : List Nat) (bs : BotState),
      lookupA bs.group_state cid = some st →
      bs.quizPaused = false →
      ¬ st.order.length ≤ st.q_index →
      st.order[st.q_index]? = some i →
      questions[i]? = some q →
      uid ∈ st.answers →
      (∀ t ∈ ts, ¬ st.start + qtime < t) →
      submitSeq questions qtime cid uid un qid sel bs ts =
        (bs, List.replicate ts.length .duplicateAnswer) := by
  intro ts
  induction ts with
  | nil => intro bs _ _ _ _ _ _ _; simp [submitSeq]
  | cons t ts ih =>
    intro bs hst hp hfin hi hq hmem hts
    have hdup := handle_answer_duplicate questions qtime bs cid uid un qid sel t st i q
      hst hp (hts t (by simp)) hfin hi hq hqid hmem
    have htail := ih bs hst hp hfin hi hq hmem (fun x hx => hts x (by simp [hx]))
    simp [submitSeq, hdup, htail, List.replicate_succ]

/-- C1: exactly-once admission.  First, from any state, a sequence of
`submit` calls with identical `(roomId, questionId, participantId)` is
accepted at most once.  Second, in the racing scenario — the question with
the submitted id is active, the session is not paused, nobody answered
yet, and every call arrives within the time limit — the first call is
accepted and every other call fails with `duplicateAnswer`, the state
staying at the first-acceptance state. -/
theorem exactly_once_admission (questions : List Question) (qtime : Nat) (bs : BotState)
    (cid : Int) (uid : Nat) (un : String) (qid sel : Int)
    (st : GroupState) (i : Nat) (q : Question) (t0 : Nat) (ts : List Nat)
    (hst : groupOf bs cid = some st)
    (hp : bs.quizPaused = false)
    (hfin : ¬ st.order.length ≤ st.q_index)
    (hi : st.order[st.q_index]? = some i)
    (hq : questions[i]? = some q)
    (hqid : qid = q.id)
    (hdup : uid ∉ st.answers)
    (ht0 : ¬ st.start + qtime < t0)
    (hts : ∀ t ∈ ts, ¬ st.start + qtime < t) :
    (∀ (ts2 : List Nat) (bs2 : BotState),
      (submitSeq questions qtime cid uid un qid sel bs2 ts2).2.countP
        (fun r => r.isAccepted) ≤ 1) ∧
    (submitSeq questions qtime cid uid un qid sel bs (t0 :: ts)).2 =
      .accepted (sel = (q.correct : Int)) q.explanation (pyGet q.options sel)
        :: List.replicate ts.length .duplicateAnswer ∧
    (submitSeq questions qtime cid uid un qid sel bs (t0 :: ts)).2.countP
      (fun r => r.isAccepted) = 1 := by
  have hacc := handle_answer_accept questions qtime bs cid uid un qid sel t0 st i q
    hst hp ht0 hfin hi hq hqid hdup
  have hgrp : lookupA (acceptState bs cid uid un st q sel).group_state cid =
      some ({ st with
        user_stats := setA st.user_stats uid
          ⟨if (sel = (q.correct : Int) : Bool) then (statsOfSt st uid).correct + 1
             else (statsOfSt st uid).correct,
           if (sel = (q.correct : Int) : Bool) then (statsOfSt st uid).wrong
             else (statsOfSt st uid).wrong + 1,
           (statsOfSt st uid).attempted + 1⟩,
        answers := st.answers ++ [uid] }) := by
    simp only [acceptState, statsOfSt]
    exact lookupA_setA_self ..
  have htail := submitSeq_tail_dup questions qtime cid uid un qid sel _ i q hqid ts
    (acceptState bs cid uid un st q sel) hgrp (by simp [acceptState]; exact hp) hfin hi hq
    (by simp) hts
  refine ⟨submitSeq_atMostOne questions qtime cid uid un qid sel, ?_, ?_⟩
  · simp [submitSeq, hacc, htail]
  · simp [submitSeq, hacc, htail, List.countP_cons, SubmitResult.isAccepted]

/-! ### Sample data for concrete counterexamples and witnesses -/

/-- Sample question: id 1, topic History, correct option 0. -/
def q1 : Question := ⟨1, "History", "Q1", ["a1", "b1", "c1", "d1"], 0, "E1"⟩

/-- Sample question: id 2, topic Polity, correct option 1. -/
def q2 : Question := ⟨2, "Polity", "Q2", ["a2", "b2", "c2", "d2"], 1, "E2"⟩

/-- A two-question bank. -/
def sampleQs : List Question := [q1, q2]

/-- A one-question session on `q1` in which participant 7 already
answered. -/
def gsRun : GroupState := ⟨[0], 0, 100, [7], [(7, ⟨1, 0, 1⟩)], none, "Mixed", 0⟩

/-- Room 1 running the `gsRun` session. -/
def bsRun : BotState := ⟨true, false, [(1, gsRun)], [(1, [(7, ⟨"u7", 1⟩)])], []⟩

/-- The `gsRun` session after its final question was finished: position
has reached `len(order)` but the state is still present. -/
def gsDone : GroupState := ⟨[0], 1, 100, [7], [(7, ⟨1, 0, 1⟩)], none, "Mixed", 0⟩

/-- A fresh one-question session on `q2` with no answers yet. -/
def gsW : GroupState := ⟨[1], 0, 100, [], [], none, "Polity", 0⟩

/-- Room 1 running the fresh `gsW` session. -/
def bsW : BotState := ⟨true, false, [(1, gsW)], [], []⟩

/-- Two rooms running sessions at once: room 1 on `q1` (already answered
by 7), room 2 on `q2` (fresh). -/
def bs2 : BotState := ⟨true, false, [(1, gsRun), (2, gsW)], [(1, [(7, ⟨"u7", 1⟩)])], []⟩

/-- An idle engine with no sessions, no scores, no history. -/
def bs0 : BotState := ⟨false, false, [], [], []⟩

/-- An engine whose room 1 history holds one record 90000 seconds old and
one 3600 seconds old (relative to `now = 1000000`). -/
def bsH : BotState := ⟨false, false, [], [],
  [(1, [⟨7, "old", 3, 1000000 - 90000, "Mixed"⟩, ⟨8, "fresh", 2, 1000000 - 3600, "Mixed"⟩])]⟩

/-! ### Claim C3: the rejection taxonomy -/

/-- The rejection conditions named by the specification for `submit`,
extended by the exhausted-session condition the code actually checks
(`q_idx >= len(order)` with the state still present). -/
def reject_condition (questions : List Question) (qtime : Nat) (bs : BotState)
    (cid : Int) (uid : Nat) (qid : Int) (now : Nat) : Prop :=
  match lookupA bs.group_state cid with
  | none => True
  | some st =>
    bs.quizPaused = true ∨
    st.start + qtime < now ∨
    st.order.length ≤ st.q_index ∨
    (∃ i q, st.order[st.q_index]? = some i ∧ questions[i]? = some q ∧ qid ≠ q.id) ∨
    uid ∈ st.answers

/-- C3 counterexample: a submission arriving exactly at the expiry
instant of the final question — after the tick has already finished the
session, whose state is retained — is rejected with the sixth outcome
`quizFinished`, even though the session state exists, the session is not
paused, the elapsed time does not exceed the limit, and the participant is
not in the answer ledger: none of the five rejection kinds enumerated by
the claim applies. -/
theorem submit_rejection_taxonomy_cex :
    (handle_answer sampleQs 45 (timeout_check 45 bsRun 145) 1 8 "v" 1 0 145).2
        = .quizFinished ∧
    groupOf (timeout_check 45 bsRun 145) 1 = some gsDone ∧
    (timeout_check 45 bsRun 145).quizPaused = false ∧
    ¬ gsDone.start + 45 < 145 ∧
    8 ∉ gsDone.answers ∧
    gsDone.order.length ≤ gsDone.q_index := by
  refine ⟨by decide, by decide, by decide, by decide, by decide, by decide⟩

/-- C3 amended: `submit` rejects — leaving the whole engine state
unchanged — exactly when no session exists for the room, or the global
paused flag is set, or the elapsed time exceeds the per-question limit,
or the session position has already reached `len(order)` (a finished
session whose state is retained), or the submitted question id differs
from the currently active question, or the participant is already in the
answer ledger. -/
theorem submit_reject_iff_amended (questions : List Question) (qtime : Nat) (bs : BotState)
    (cid : Int) (uid : Nat) (un : String) (qid sel : Int) (now : Nat)
    (hwf : ∀ st, lookupA bs.group_state cid = some st →
      ∀ j ∈ st.order, j < questions.length) :
    ((handle_answer questions qtime bs cid uid un qid sel now).2.isAccepted = false ↔
      reject_condition questions qtime bs cid uid qid now) ∧
    ((handle_answer questions qtime bs cid uid un qid sel now).2.isAccepted = false →
      (handle_answer questions qtime bs cid uid un qid sel now).1 = bs) := by
  have hframe : (handle_answer questions qtime bs cid uid un qid sel now).2.isAccepted = false →
      (handle_answer questions qtime bs cid uid un qid sel now).1 = bs := by
    intro h
    rcases handle_answer_frame questions qtime bs cid uid un qid sel now with hT | hF
    · rw [h] at hT; cases hT
    · exact hF
  refine ⟨?_, hframe⟩
  unfold reject_condition
  cases hst : lookupA bs.group_state cid with
  | none =>
    have hres : (handle_answer questions qtime bs cid uid un qid sel now).2
        = .noActiveSession := by
      unfold handle_answer; rw [hst]
    rw [hres]
    simp [SubmitResult.isAccepted]
  | some st =>
    by_cases hp : bs.quizPaused
    · have hres : (handle_answer questions qtime bs cid uid un qid sel now).2
          = .sessionPaused := by
        unfold handle_answer; rw [hst]; simp [hp]
      rw [hres]
      simp [SubmitResult.isAccepted, hp]
    · simp only [Bool.not_eq_true] at hp
      by_cases ht : st.start + qtime < now
      · have hres : (handle_answer questions qtime bs cid uid un qid sel now).2
            = .timeExpired := by
          unfold handle_answer; rw [hst]; simp [hp, ht]
        rw [hres]
        simp [SubmitResult.isAccepted, ht]
      · by_cases hfin : st.order.length ≤ st.q_index
        · have hres : (handle_answer questions qtime bs cid uid un qid sel now).2
              = .quizFinished := by
            unfold handle_answer; rw [hst]; simp [hp, ht, hfin]
          rw [hres]
          simp [SubmitResult.isAccepted, hfin]
        · have hlt : st.q_index < st.order.length := Nat.lt_of_not_le hfin
          have hi : st.order[st.q_index]? = some st.order[st.q_index] :=
            List.getElem?_eq_getElem hlt
          have hjlt : st.order[st.q_index] < questions.length :=
            hwf st hst _ (List.getElem_mem hlt)
          have hq : questions[st.order[st.q_index]]? =
              some questions[st.order[st.q_index]] := List.getElem?_eq_getElem hjlt
          by_cases hqid : qid ≠ questions[st.order[st.q_index]].id
          · have hres : (handle_answer questions qtime bs cid uid un qid sel now).2
                = .staleQuestion := by
              unfold handle_answer; rw [hst]; simp [hp, ht, hfin, hi, hq, hqid]
            rw [hres]
            refine iff_of_true (by simp [SubmitResult.isAccepted]) ?_
            exact Or.inr (Or.inr (Or.inr (Or.inl ⟨_, _, hi, hq, hqid⟩)))
          · by_cases hdup : uid ∈ st.answers
            · have hres : (handle_answer questions qtime bs cid uid un qid sel now).2
                  = .duplicateAnswer := by
                unfold handle_answer; rw [hst]; simp [hp, ht, hfin, hi, hq, hqid, hdup]
              rw [hres]
              refine iff_of_true (by simp [SubmitResult.isAccepted]) ?_
              exact Or.inr (Or.inr (Or.inr (Or.inr hdup)))
            · push_neg at hqid
              have hres := handle_answer_accept questions qtime bs cid uid un qid sel now
                st _ _ hst hp ht hfin hi hq hqid hdup
              rw [hres]
              refine iff_of_false (by simp [SubmitResult.isAccepted]) ?_
              intro hrc
              rcases hrc with h | h | h | ⟨i2, q2, hi2, hq2, hne2⟩ | h
              · rw [hp] at h; cases h
              · exact ht h
              · exact hfin h
              · rw [hi] at hi2
                rw [Option.some.injEq] at hi2
                subst hi2
                rw [hq] at hq2
                rw [Option.some.injEq] at hq2
                subst hq2
                exact hne2 hqid
              · exact hdup h

/-! ### Claim C4: what happens when the order is exhausted -/

/-- C4 counterexample: finishing the final question of the `bsRun`
session runs the summary/history step (one record is appended) but does
NOT destroy the Session State — the room does not return to "no active
session" — and the global running flag stays `true`; moreover, stopping
room 1 of a two-room engine sets the global running flag to `false` while
the session state of room 2 still exists, so `running` is not equivalent
to per-room session existence. -/
theorem finalize_retention_cex :
    groupOf (finish_question bsRun 1 150) 1 = some gsDone ∧
    (historyOf (finish_question bsRun 1 150) 1).length = 1 ∧
    (finish_question bsRun 1 150).quizRunning = true ∧
    (quiz_stop bs2 1).1.quizRunning = false ∧
    groupOf (quiz_stop bs2 1).1 2 = some gsW := by
  refine ⟨by decide, by decide, by decide, by decide, by decide⟩

/-- The session state with the position advanced by one, as
`finish_question` writes it back. -/
def bumpQ (st : GroupState) : GroupState := { st with q_index := st.q_index + 1 }

/-- Finishing the last question of a session: the state is retained with
the position pinned at `len(order)`, the session records are appended to
the history, and the global flags are untouched. -/
theorem finish_question_last_spec (bs : BotState) (st : GroupState) (cid : Int) (now : Nat)
    (hst : groupOf bs cid = some st)
    (hlast : st.q_index + 1 = st.order.length) :
    groupOf (finish_question bs cid now) cid = some (bumpQ st) ∧
    historyOf (finish_question bs cid now) cid
      = historyOf bs cid ++ session_records (boardOf bs cid) st now ∧
    (finish_question bs cid now).quizRunning = bs.quizRunning ∧
    (finish_question bs cid now).quizPaused = bs.quizPaused := by
  have hstL : lookupA bs.group_state cid = some st := hst
  have hfin : ¬ st.order.length ≤ st.q_index := by omega
  have hnext : ¬ (st.q_index + 1 < st.order.length) := by omega
  have hred : finish_question bs cid now =
      send_user_summaries ({ bs with group_state := setA bs.group_state cid (bumpQ st) })
        cid now := by
    unfold finish_question bumpQ
    rw [hstL]
    simp [hfin, hnext]
  have hlk : lookupA (setA bs.group_state cid (bumpQ st)) cid
      = some (bumpQ st) := lookupA_setA_self ..
  have hsum : ∀ (c : BotState), c = send_user_summaries ({ bs with
        group_state := setA bs.group_state cid (bumpQ st) }) cid now →
      lookupA c.group_state cid = some (bumpQ st) ∧
      historyOf c cid = historyOf bs cid ++ session_records (boardOf bs cid) st now ∧
      c.quizRunning = bs.quizRunning ∧ c.quizPaused = bs.quizPaused := by
    intro c hc
    unfold send_user_summaries at hc
    rw [hlk] at hc
    dsimp only at hc
    by_cases hrec : (session_records ((lookupA bs.leaderboard cid).getD [])
        (bumpQ st) now).isEmpty
    · rw [if_pos hrec] at hc
      subst hc
      have hnil : session_records ((lookupA bs.leaderboard cid).getD [])
          (bumpQ st) now = [] := by
        simpa using hrec
      refine ⟨hlk, ?_, rfl, rfl⟩
      show historyOf bs cid = historyOf bs cid ++
        session_records (boardOf bs cid) st now
      have h2 : session_records (boardOf bs cid) st now = [] := hnil
      rw [h2, List.append_nil]
    · rw [if_neg hrec] at hc
      subst hc
      refine ⟨hlk, ?_, rfl, rfl⟩
      show (lookupA (setA bs.results_history cid _) cid).getD [] = _
      rw [lookupA_setA_self]
      rfl
  exact hsum (finish_question bs cid now) hred

/-- C4 amended: once the position of a session reaches `len(order)` the
finalize step appends the per-participant history records, but the
Session State is retained (position pinned at `len(order)`) and the
global flags are untouched; `running` is a single global flag — any stop
clears it while leaving every other room's session state in place — so it
is not equivalent to per-room session existence. -/
theorem finalize_retention_amended (bs : BotState) (st : GroupState) (cid : Int) (now : Nat)
    (hst : groupOf bs cid = some st)
    (hlast : st.q_index + 1 = st.order.length) :
    groupOf (finish_question bs cid now) cid = some (bumpQ st) ∧
    historyOf (finish_question bs cid now) cid
      = historyOf bs cid ++ session_records (boardOf bs cid) st now ∧
    (finish_question bs cid now).quizRunning = bs.quizRunning ∧
    (finish_question bs cid now).quizPaused = bs.quizPaused ∧
    (∀ bs2 c, bs2.quizRunning = true → (quiz_stop bs2 c).1.quizRunning = false) ∧
    (∀ bs2 c c', c' ≠ c → groupOf (quiz_stop bs2 c).1 c' = groupOf bs2 c') := by
  obtain ⟨h1, h2, h3, h4⟩ := finish_question_last_spec bs st cid now hst hlast
  refine ⟨h1, h2, h3, h4, ?_, ?_⟩
  · intro bs2 c hr
    unfold quiz_stop
    simp [hr]
  · intro bs2 c c' hne
    unfold quiz_stop groupOf
    by_cases hr : bs2.quizRunning
    · simp only [hr, Bool.not_true, Bool.false_eq_true, if_false]
      exact lookupA_removeA_ne _ _ _ hne
    · simp only [Bool.not_eq_true] at hr
      simp [hr]

/-! ### Claim C9: cross-room effects of the lifecycle commands -/

/-- C9 counterexample: with rooms 1 and 2 both running sessions, a
submission to room 2 is admissible; after `quiz_pause` is issued (from
room 1 — the command only touches the two global flags), the very same
submission to room 2 is rejected with `sessionPaused`.  Pausing one room
does not leave the behavior of the engine toward the other room
unchanged. -/
theorem cross_room_globals_cex :
    ((handle_answer sampleQs 45 bs2 2 9 "w" 2 1 130).2).isAccepted = true ∧
    (quiz_pause bs2).2 = .ok ∧
    (handle_answer sampleQs 45 (quiz_pause bs2).1 2 9 "w" 2 1 130).2 = .sessionPaused := by
  refine ⟨by decide, by decide, by decide⟩

/-- `timeout_check` is a no-op whenever the global flags forbid
progress. -/
theorem timeout_check_skip (qtime : Nat) (bs : BotState) (now : Nat)
    (h : bs.quizPaused = true ∨ bs.quizRunning = false) :
    timeout_check qtime bs now = bs := by
  unfold timeout_check
  suffices hgen : ∀ l : List (Int × GroupState),
      List.foldl (timeout_step qtime now) bs l = bs from hgen _
  intro l
  induction l with
  | nil => rfl
  | cons x xs ih =>
    have hx : timeout_step qtime now bs x = bs := by
      unfold timeout_step
      rcases h with h | h <;> simp [h]
    simp [List.foldl_cons, hx, ih]

/-- C9 amended: `quiz_pause` / `quiz_resume` / `quiz_stop` leave every
other room's Session State (and all Score Tables and histories)
unchanged, but the running/paused flags they manipulate are GLOBAL:
after a pause, a submission to any room with a session is rejected with
`sessionPaused`; after a stop issued in one room the tick driver stops
advancing every room (while submissions to other rooms are still
admitted, since `handle_answer` never consults the running flag — shown
concretely for the two-room state); a paused engine's ticks are
likewise a global no-op. -/
theorem lifecycle_frame_amended :
    (∀ bs c', groupOf (quiz_pause bs).1 c' = groupOf bs c' ∧
      groupOf (quiz_resume bs).1 c' = groupOf bs c' ∧
      (quiz_pause bs).1.leaderboard = bs.leaderboard ∧
      (quiz_resume bs).1.leaderboard = bs.leaderboard ∧
      (quiz_pause bs).1.results_history = bs.results_history ∧
      (quiz_resume bs).1.results_history = bs.results_history) ∧
    (∀ bs c c', c' ≠ c → groupOf (quiz_stop bs c).1 c' = groupOf bs c') ∧
    (∀ bs c, (quiz_stop bs c).1.leaderboard = bs.leaderboard ∧
      (quiz_stop bs c).1.results_history = bs.results_history) ∧
    (∀ (questions : List Question) (qtime : Nat) (bs : BotState) (c' : Int)
        (st2 : GroupState) (uid : Nat) (un : String) (qid sel : Int) (t : Nat),
      bs.quizRunning = true → bs.quizPaused = false →
      groupOf (quiz_pause bs).1 c' = some st2 →
      (handle_answer questions qtime (quiz_pause bs).1 c' uid un qid sel t).2
        = .sessionPaused) ∧
    (∀ qtime bs c t, (quiz_stop bs c).1.quizRunning = false ∧
      (bs.quizRunning = true →
        timeout_check qtime (quiz_stop bs c).1 t = (quiz_stop bs c).1)) ∧
    ((handle_answer sampleQs 45 (quiz_stop bs2 1).1 2 9 "w" 2 1 130).2.isAccepted = true) := by
  refine ⟨?_, ?_, ?_, ?_, ?_, by decide⟩
  · intro bs c'
    unfold quiz_pause quiz_resume groupOf
    refine ⟨?_, ?_, ?_, ?_, ?_, ?_⟩ <;> (repeat' split) <;> rfl
  · intro bs c c' hne
    unfold quiz_stop groupOf
    by_cases hr : bs.quizRunning
    · simp only [hr, Bool.not_true, Bool.false_eq_true, if_false]
      exact lookupA_removeA_ne _ _ _ hne
    · simp only [Bool.not_eq_true] at hr
      simp [hr]
  · intro bs c
    unfold quiz_stop
    constructor <;> (repeat' split) <;> rfl
  · intro questions qtime bs c' st2 uid un qid sel t hr hp hlk
    have hpause : (quiz_pause bs).1 = { bs with quizPaused := true } := by
      unfold quiz_pause
      simp [hr, hp]
    rw [hpause] at hlk ⊢
    have hlk2 : lookupA ({ bs with quizPaused := true } : BotState).group_state c'
        = some st2 := hlk
    unfold handle_answer
    rw [hlk2]
    simp
  · intro qtime bs c t
    constructor
    · unfold quiz_stop
      by_cases hr : bs.quizRunning <;> simp [hr]
    · intro hr
      have hstop : (quiz_stop bs c).1.quizRunning = false := by
        unfold quiz_stop
        simp [hr]
      exact timeout_check_skip qtime _ t (Or.inr hstop)

/-! ### Claim C6: the time-windowed leaderboard -/

/-- The per-participant sum held by an aggregation accumulator (0 when
the participant is absent). -/
def aggScore (agg : List (Nat × BoardEntry)) (uid : Nat) : ℚ :=
  ((lookupA agg uid).map BoardEntry.score).getD 0

theorem aggScore_agg_step (agg : List (Nat × BoardEntry)) (r : HistRecord) (uid : Nat) :
    aggScore (agg_step agg r) uid =
      if r.user_id = uid then aggScore agg uid + r.score else aggScore agg uid := by
  unfold aggScore agg_step
  by_cases h : r.user_id = uid
  · subst h
    rw [lookupA_setA_self]
    cases hl : lookupA agg r.user_id <;> simp [hl]
  · rw [if_neg h, lookupA_setA_ne _ _ _ _ (fun hx => h hx.symm)]

theorem aggScore_foldl : ∀ (l : List HistRecord) (acc : List (Nat × BoardEntry)) (uid : Nat),
    aggScore (List.foldl agg_step acc l) uid
      = aggScore acc uid
        + ((l.filter (fun r => r.user_id == uid)).map HistRecord.score).sum := by
  intro l
  induction l with
  | nil => simp
  | cons r t ih =>
    intro acc uid
    simp only [List.foldl_cons]
    rw [ih, aggScore_agg_step]
    by_cases h : r.user_id = uid
    · simp only [if_pos h, List.filter_cons, h, beq_self_eq_true, if_pos, List.map_cons,
        List.sum_cons]
      ring
    · have hb : (r.user_id == uid) = false := by
        simpa using h
      simp [h, List.filter_cons, hb]

theorem foldl_agg_step_ne_nil :
    ∀ (l : List HistRecord) (acc : List (Nat × BoardEntry)),
      acc ≠ [] → List.foldl agg_step acc l ≠ [] := by
  intro l
  induction l with
  | nil => intro acc h; simpa using h
  | cons r t ih =>
    intro acc _
    simp only [List.foldl_cons]
    exact ih (agg_step acc r) (by unfold agg_step; exact setA_ne_nil _ _ _)

theorem foldl_agg_step_nil_iff (l : List HistRecord) :
    List.foldl agg_step [] l = [] ↔ l = [] := by
  cases l with
  | nil => simp
  | cons r t =>
    simp only [List.foldl_cons]
    have h2 := foldl_agg_step_ne_nil t (agg_step [] r)
      (by unfold agg_step; exact setA_ne_nil _ _ _)
    simp [h2]

/-- C6: `windowed` keeps exactly the history records with
`ts ≥ now − windowDays*86400` (all records when no window is given), sums
the session scores per participant over exactly those records, sorts the
sums descending, truncates to the top 20, and distinguishes "no history
at all" from "history exists but nothing in window"; concretely, with a
one-day window a record 90000 seconds old is excluded while one 3600
seconds old is included. -/
theorem windowed_leaderboard_correct :
    (∀ bs cid days now,
      build_time_leaderboard bs cid days now = .noHistory ↔ historyOf bs cid = []) ∧
    (∀ bs cid days now,
      build_time_leaderboard bs cid days now = .nothingInWindow ↔
        (historyOf bs cid ≠ [] ∧ (historyOf bs cid).filter (in_window now days) = [])) ∧
    (∀ (bs : BotState) (cid : Int) (days : Option Nat) (now : Nat) (r : HistRecord),
      r ∈ (historyOf bs cid).filter (in_window now days) ↔
        (r ∈ historyOf bs cid ∧ ∀ d, days = some d → now - d * 86400 ≤ r.ts)) ∧
    (∀ bs cid days now es,
      build_time_leaderboard bs cid days now = .board es →
        ∃ l : List BoardEntry, List.Perm l ((List.foldl agg_step []
              ((historyOf bs cid).filter (in_window now days))).map Prod.snd) ∧
          List.Sorted board_le l ∧ es = l.take 20) ∧
    (∀ bs cid days now uid,
      aggScore (List.foldl agg_step [] ((historyOf bs cid).filter (in_window now days))) uid
        = ((((historyOf bs cid).filter (in_window now days)).filter
            (fun r => r.user_id == uid)).map HistRecord.score).sum) ∧
    build_time_leaderboard bsH 1 (some 1) 1000000 = .board [⟨"fresh", 2⟩] := by
  have hhist : ∀ (bs : BotState) (cid : Int),
      (lookupA bs.results_history cid).getD [] = historyOf bs cid := fun _ _ => rfl
  refine ⟨?_, ?_, ?_, ?_, ?_, ?_⟩
  · intro bs cid days now
    unfold build_time_leaderboard
    rw [hhist]
    by_cases h : (historyOf bs cid).isEmpty
    · rw [if_pos h]
      simpa using List.isEmpty_iff.mp h
    · rw [if_neg h]
      have hne : ¬ historyOf bs cid = [] := by
        simpa [List.isEmpty_iff] using h
      by_cases h2 : (List.foldl agg_step []
          ((historyOf bs cid).filter (in_window now days))).isEmpty
      · rw [if_pos h2]
        simp [hne]
      · rw [if_neg h2]
        simp [hne]
  · intro bs cid days now
    unfold build_time_leaderboard
    rw [hhist]
    by_cases h : (historyOf bs cid).isEmpty
    · rw [if_pos h]
      have := List.isEmpty_iff.mp h
      simp [this]
    · rw [if_neg h]
      have hne : ¬ historyOf bs cid = [] := by
        simpa [List.isEmpty_iff] using h
      by_cases h2 : (List.foldl agg_step []
          ((historyOf bs cid).filter (in_window now days))).isEmpty
      · rw [if_pos h2]
        have h3 := (foldl_agg_step_nil_iff _).mp (List.isEmpty_iff.mp h2)
        simp [hne, h3]
      · rw [if_neg h2]
        have h3 : ¬ (historyOf bs cid).filter (in_window now days) = [] := by
          intro hx
          exact h2 (by simp [hx])
        simp [hne, h3]
  · intro bs cid days now r
    rw [List.mem_filter]
    constructor
    · rintro ⟨hm, hw⟩
      refine ⟨hm, ?_⟩
      intro d hd
      subst hd
      simpa [in_window] using hw
    · rintro ⟨hm, hw⟩
      refine ⟨hm, ?_⟩
      cases days with
      | none => simp [in_window]
      | some d => simpa [in_window] using hw d rfl
  · intro bs cid days now es hb
    unfold build_time_leaderboard at hb
    rw [hhist] at hb
    by_cases h : (historyOf bs cid).isEmpty
    · rw [if_pos h] at hb
      exact absurd hb (by simp)
    · rw [if_neg h] at hb
      by_cases h2 : (List.foldl agg_step []
          ((historyOf bs cid).filter (in_window now days))).isEmpty
      · rw [if_pos h2] at hb
        exact absurd hb (by simp)
      · rw [if_neg h2] at hb
        refine ⟨List.insertionSort board_le ((List.foldl agg_step []
            ((historyOf bs cid).filter (in_window now days))).map Prod.snd), ?_, ?_, ?_⟩
        · exact List.perm_insertionSort board_le _
        · exact List.sorted_insertionSort board_le _
        · cases hb
          rfl
  · intro bs cid days now uid
    rw [aggScore_foldl]
    simp [aggScore]
  · norm_num [build_time_leaderboard, bsH, historyOf, lookupA, in_window, agg_step, setA,
      List.insertionSort, List.orderedInsert, board_le, List.foldl, List.filter]

/-! ### Claims C7 and C8: session creation -/

/-- The candidate index list `indices_all` of `start_quiz`: positions of
the case-insensitively matching questions under a topic filter, all
positions otherwise. -/
def candidates_for (questions : List Question) (topic_arg : Option String) : List Nat :=
  match topic_arg with
  | some t => candidate_indices questions t.trim.toLower
  | none => List.range questions.length

theorem candidates_for_nodup (questions : List Question) (topic_arg : Option String) :
    (candidates_for questions topic_arg).Nodup := by
  cases topic_arg with
  | none => exact List.nodup_range _
  | some t => exact List.Nodup.filter _ (List.nodup_range _)

/-- `send_question` can only reset the clock, the ledger and the message
id: order, position and tally of the room are untouched. -/
theorem send_question_at (b : BotState) (c : Int) (n : Nat) (st : GroupState)
    (h : lookupA b.group_state c = some st) :
    ∃ st2, lookupA (send_question b c n).group_state c = some st2 ∧
      st2.order = st.order ∧ st2.q_index = st.q_index ∧ st2.user_stats = st.user_stats := by
  unfold send_question
  by_cases hf : (b.quizPaused || !b.quizRunning) = true
  · rw [if_pos hf]
    exact ⟨st, h, rfl, rfl, rfl⟩
  · rw [if_neg hf, h]
    dsimp only
    by_cases h2 : st.order.length ≤ st.q_index
    · rw [if_pos h2]
      exact ⟨st, h, rfl, rfl, rfl⟩
    · rw [if_neg h2]
      exact ⟨_, lookupA_setA_self .., rfl, rfl, rfl⟩

theorem desired_map_pos (mode : String) : 1 ≤ desired_map mode := by
  unfold desired_map
  repeat' split
  all_goals omega

/-- The session-creation tail always succeeds on a nonempty candidate
list and installs the shuffled, truncated order with position 0 and an
empty tally. -/
theorem start_create_spec (shuffle : List Nat → List Nat) (bs : BotState) (cid : Int)
    (indices_all : List Nat) (mode : String) (label : String) (now : Nat)
    (hne : indices_all ≠ []) :
    (start_create shuffle bs cid indices_all mode label now).2 = .started ∧
    ∃ st2, lookupA (start_create shuffle bs cid indices_all mode label now).1.group_state cid
        = some st2 ∧
      st2.order = (shuffle indices_all).take (min (desired_map mode) indices_all.length) ∧
      st2.q_index = 0 ∧ st2.user_stats = [] := by
  unfold start_create
  have hlen : indices_all.length ≠ 0 := by
    simpa [List.length_eq_zero] using hne
  have hd := desired_map_pos mode
  have hcount : ¬ (min (desired_map mode) indices_all.length = 0) := by omega
  rw [if_neg hcount]
  dsimp only
  refine ⟨rfl, ?_⟩
  exact send_question_at
    ⟨true, false, setA bs.group_state cid
      ⟨(shuffle indices_all).take (min (desired_map mode) indices_all.length),
       0, now, [], [], none, label, 0⟩, bs.leaderboard, bs.results_history⟩
    cid now
    ⟨(shuffle indices_all).take (min (desired_map mode) indices_all.length),
     0, now, [], [], none, label, 0⟩
    (lookupA_setA_self ..)

/-- Inversion of a successful `start_quiz`: the created session has the
shuffled candidate order truncated at the mode target, position 0 and an
empty tally. -/
theorem start_quiz_inversion (questions : List Question) (shuffle : List Nat → List Nat)
    (bs : BotState) (cid : Int) (topic_arg : Option String) (mode : String) (now : Nat)
    (hok : (start_quiz questions shuffle bs cid topic_arg mode now).2 = .started) :
    ∃ st2, groupOf (start_quiz questions shuffle bs cid topic_arg mode now).1 cid = some st2 ∧
      st2.order = (shuffle (candidates_for questions topic_arg)).take
        (min (desired_map mode) (candidates_for questions topic_arg).length) ∧
      st2.q_index = 0 ∧ st2.user_stats = [] := by
  unfold start_quiz at hok ⊢
  by_cases h0 : questions.length = 0
  · rw [if_pos h0] at hok
    cases hok
  · rw [if_neg h0] at hok ⊢
    dsimp only at hok ⊢
    by_cases hb : (match lookupA bs.group_state cid with
        | some st => decide (st.q_index < st.order.length)
        | none => false) = true
    · rw [if_pos hb] at hok
      cases hok
    · rw [if_neg hb] at hok ⊢
      cases topic_arg with
      | none =>
        dsimp only at hok ⊢
        have hne : List.range questions.length ≠ [] := by
          simpa [List.length_eq_zero] using h0
        obtain ⟨-, st2, hlk, ho, hq, hs⟩ :=
          start_create_spec shuffle bs cid (List.range questions.length) mode "Mixed" now hne
        exact ⟨st2, hlk, ho, hq, hs⟩
      | some t =>
        dsimp only at hok ⊢
        by_cases hz : (candidate_indices questions t.trim.toLower).length = 0
        · rw [if_pos hz] at hok
          cases hok
        · rw [if_neg hz] at hok ⊢
          have hne : candidate_indices questions t.trim.toLower ≠ [] := by
            simpa [List.length_eq_zero] using hz
          obtain ⟨-, st2, hlk, ho, hq, hs⟩ :=
            start_create_spec shuffle bs cid _ mode t now hne
          exact ⟨st2, hlk, ho, hq, hs⟩

/-- C7: for every successful `start`, the created order has length
`min(target, number of candidates)`, where the target follows the fixed
mode table `short→5, long→15, full→25` with default `short`, and the
candidates are the case-insensitively topic-matching questions (all
questions without a topic filter); the order is a prefix of a
permutation of the candidates and hence contains no repeated question. -/
theorem start_order_properties (questions : List Question) (shuffle : List Nat → List Nat)
    (bs : BotState) (cid : Int) (topic_arg : Option String) (mode : String) (now : Nat)
    (st2 : GroupState)
    (hperm : ∀ l, List.Perm (shuffle l) l)
    (hok : (start_quiz questions shuffle bs cid topic_arg mode now).2 = .started)
    (hst2 : groupOf (start_quiz questions shuffle bs cid topic_arg mode now).1 cid
      = some st2) :
    st2.order.length = min (desired_map mode) (candidates_for questions topic_arg).length ∧
    st2.order.Nodup ∧
    (∃ rest, shuffle (candidates_for questions topic_arg) = st2.order ++ rest) ∧
    List.Perm (shuffle (candidates_for questions topic_arg))
      (candidates_for questions topic_arg) ∧
    desired_map "short" = 5 ∧ desired_map "long" = 15 ∧ desired_map "full" = 25 ∧
    (mode ≠ "short" → mode ≠ "long" → mode ≠ "full" →
      desired_map mode = desired_map "short") := by
  obtain ⟨st3, hlk, ho, hq, hs⟩ :=
    start_quiz_inversion questions shuffle bs cid topic_arg mode now hok
  have hst3 : st3 = st2 := by
    rw [hst2] at hlk
    exact ((Option.some.injEq _ _).mp hlk).symm
  subst hst3
  have hplen := (hperm (candidates_for questions topic_arg)).length_eq
  constructor
  · rw [ho, List.length_take, hplen]
    omega
  constructor
  · rw [ho]
    refine List.Nodup.sublist (List.take_sublist _ _) ?_
    exact (hperm _).nodup_iff.mpr (candidates_for_nodup questions topic_arg)
  constructor
  · refine ⟨(shuffle (candidates_for questions topic_arg)).drop
      (min (desired_map mode) (candidates_for questions topic_arg).length), ?_⟩
    rw [ho]
    exact (List.take_append_drop _ _).symm
  refine ⟨hperm _, rfl, rfl, rfl, ?_⟩
  intro h1 h2 h3
  unfold desired_map
  simp [h1, h2, h3]

/-- C8: `start` fails — creating no Session State, the whole engine state
unchanged — exactly when the question bank is empty, or an existing
session for the room has `position < len(order)`, or a topic filter is
given that matches zero questions; consequently every created session has
`len(order) ≥ 1`. -/
theorem start_failure_iff (questions : List Question) (shuffle : List Nat → List Nat)
    (bs : BotState) (cid : Int) (topic_arg : Option String) (mode : String) (now : Nat)
    (hperm : ∀ l, List.Perm (shuffle l) l) :
    ((start_quiz questions shuffle bs cid topic_arg mode now).2 ≠ .started ↔
      (questions = [] ∨
       (∃ st, groupOf bs cid = some st ∧ st.q_index < st.order.length) ∨
       (∃ t, topic_arg = some t ∧ candidate_indices questions t.trim.toLower = []))) ∧
    ((start_quiz questions shuffle bs cid topic_arg mode now).2 ≠ .started →
      (start_quiz questions shuffle bs cid topic_arg mode now).1 = bs) ∧
    ((start_quiz questions shuffle bs cid topic_arg mode now).2 = .started →
      ∃ st2, groupOf (start_quiz questions shuffle bs cid topic_arg mode now).1 cid = some st2 ∧
        1 ≤ st2.order.length) := by
  have hlen3 : ∀ (h : (start_quiz questions shuffle bs cid topic_arg mode now).2 = .started),
      ∃ st2, groupOf (start_quiz questions shuffle bs cid topic_arg mode now).1 cid
          = some st2 ∧ 1 ≤ st2.order.length := by
    intro hok
    obtain ⟨st2, hlk, ho, -, -⟩ :=
      start_quiz_inversion questions shuffle bs cid topic_arg mode now hok
    refine ⟨st2, hlk, ?_⟩
    rw [ho, List.length_take, (hperm _).length_eq]
    have hd := desired_map_pos mode
    have hc : 1 ≤ (candidates_for questions topic_arg).length := by
      unfold start_quiz at hok
      by_cases h0 : questions.length = 0
      · rw [if_pos h0] at hok
        cases hok
      · rw [if_neg h0] at hok
        dsimp only at hok
        by_cases hb : (match lookupA bs.group_state cid with
            | some st => decide (st.q_index < st.order.length)
            | none => false) = true
        · rw [if_pos hb] at hok
          cases hok
        · rw [if_neg hb] at hok
          cases topic_arg with
          | none =>
            show 1 ≤ (List.range questions.length).length
            simpa using Nat.one_le_iff_ne_zero.mpr h0
          | some t =>
            dsimp only at hok
            by_cases hz : (candidate_indices questions t.trim.toLower).length = 0
            · rw [if_pos hz] at hok
              cases hok
            · show 1 ≤ (candidate_indices questions t.trim.toLower).length
              omega
    omega
  refine ⟨?_, ?_, hlen3⟩
  · unfold start_quiz
    by_cases h0 : questions.length = 0
    · rw [if_pos h0]
      refine iff_of_true (by simp) (Or.inl ?_)
      exact List.length_eq_zero.mp h0
    · rw [if_neg h0]
      dsimp only
      by_cases hb : (match lookupA bs.group_state cid with
          | some st => decide (st.q_index < st.order.length)
          | none => false) = true
      · rw [if_pos hb]
        refine iff_of_true (by simp) (Or.inr (Or.inl ?_))
        cases hlk : lookupA bs.group_state cid with
        | none => rw [hlk] at hb; cases hb
        | some st =>
          rw [hlk] at hb
          exact ⟨st, hlk, by simpa using hb⟩
      · rw [if_neg hb]
        have hnb : ¬ (∃ st, groupOf bs cid = some st ∧ st.q_index < st.order.length) := by
          rintro ⟨st, hlk, hloc⟩
          apply hb
          rw [show lookupA bs.group_state cid = some st from hlk]
          simpa using hloc
        cases topic_arg with
        | none =>
          dsimp only
          have hne : List.range questions.length ≠ [] := by
            simpa [List.length_eq_zero] using h0
          obtain ⟨hok, -⟩ := start_create_spec shuffle bs cid _ mode "Mixed" now hne
          rw [hok]
          refine iff_of_false (by simp) ?_
          rintro (h | h | ⟨t, ht, -⟩)
          · exact h0 (by simp [h])
          · exact hnb h
          · cases ht
        | some t =>
          dsimp only
          by_cases hz : (candidate_indices questions t.trim.toLower).length = 0
          · rw [if_pos hz]
            refine iff_of_true (by simp) (Or.inr (Or.inr ?_))
            exact ⟨t, rfl, List.length_eq_zero.mp hz⟩
          · rw [if_neg hz]
            have hne : candidate_indices questions t.trim.toLower ≠ [] := by
              simpa [List.length_eq_zero] using hz
            obtain ⟨hok, -⟩ := start_create_spec shuffle bs cid _ mode t now hne
            rw [hok]
            refine iff_of_false (by simp) ?_
            rintro (h | h | ⟨t2, ht2, hz2⟩)
            · exact h0 (by simp [h])
            · exact hnb h
            · rw [Option.some.injEq] at ht2
              subst ht2
              exact hne hz2
  · intro hfail
    unfold start_quiz at hfail ⊢
    by_cases h0 : questions.length = 0
    · rw [if_pos h0]
    · rw [if_neg h0] at hfail ⊢
      dsimp only at hfail ⊢
      by_cases hb : (match lookupA bs.group_state cid with
          | some st => decide (st.q_index < st.order.length)
          | none => false) = true
      · rw [if_pos hb]
      · rw [if_neg hb] at hfail ⊢
        cases topic_arg with
        | none =>
          dsimp only at hfail ⊢
          have hne : List.range questions.length ≠ [] := by
            simpa [List.length_eq_zero] using h0
          obtain ⟨hok, -⟩ := start_create_spec shuffle bs cid _ mode "Mixed" now hne
          exact absurd hok hfail
        | some t =>
          dsimp only at hfail ⊢
          by_cases hz : (candidate_indices questions t.trim.toLower).length = 0
          · rw [if_pos hz]
          · rw [if_neg hz] at hfail ⊢
            have hne : candidate_indices questions t.trim.toLower ≠ [] := by
              simpa [List.length_eq_zero] using hz
            obtain ⟨hok, -⟩ := start_create_spec shuffle bs cid _ mode t now hne
            exact absurd hok hfail

/-! ### Claim C5: score conservation over a session -/

/-- The session score derived from a tally:
`correct * MARK_CORRECT + wrong * MARK_WRONG`. -/
def tallyScore (u : UserStats) : ℚ :=
  (u.correct : ℚ) * MARK_CORRECT + (u.wrong : ℚ) * MARK_WRONG

/-- The tally of a participant in the session of a room (zeroes when the
room has no session or the participant never answered). -/
def sessStats (bs : BotState) (cid : Int) (uid : Nat) : UserStats :=
  match groupOf bs cid with
  | some st => statsOfSt st uid
  | none => ⟨0, 0, 0⟩

/-- One inbound event processed by the main polling loop, restricted to a
fixed room for the answers: either a `submit` callback or a tick of the
timeout driver. -/
inductive Event
  | answer (uid : Nat) (un : String) (qid sel : Int) (t : Nat)
  | tick (t : Nat)

/-- Run a list of events strictly sequentially, as the single polling
loop of `main` does. -/
def runEvents (questions : List Question) (qtime : Nat) (cid : Int) :
    BotState → List Event → BotState
  | bs, [] => bs
  | bs, .answer uid un qid sel t :: es =>
      runEvents questions qtime cid
        (handle_answer questions qtime bs cid uid un qid sel t).1 es
  | bs, .tick t :: es => runEvents questions qtime cid (timeout_check qtime bs t) es

/-- The conserved relation: every cumulative score of the room equals its
baseline plus the tally-derived session score, and the tally keys are
distinct. -/
def ScoreInv (base : Nat → ℚ) (cid : Int) (bs : BotState) : Prop :=
  (∀ u, scoreOf bs cid u = base u + tallyScore (sessStats bs cid u)) ∧
  (∀ st, groupOf bs cid = some st → (st.user_stats.map Prod.fst).Nodup)

/-- Inversion of an accepted `handle_answer`: the new state is
`acceptState` over the session that was looked up. -/
theorem handle_answer_accept_inv (questions : List Question) (qtime : Nat) (bs : BotState)
    (cid : Int) (uid : Nat) (un : String) (qid sel : Int) (now : Nat)
    (hacc : (handle_answer questions qtime bs cid uid un qid sel now).2.isAccepted = true) :
    ∃ st q, lookupA bs.group_state cid = some st ∧ uid ∉ st.answers ∧
      (handle_answer questions qtime bs cid uid un qid sel now).1
        = acceptState bs cid uid un st q sel := by
  cases hr : handle_answer questions qtime bs cid uid un qid sel now with
  | mk b res =>
    rw [hr] at hacc
    unfold handle_answer at hr
    repeat' split at hr
    all_goals cases hr
    all_goals simp [SubmitResult.isAccepted] at hacc
    exact ⟨_, _, (by assumption), (by assumption), rfl⟩

theorem tallyScore_right (u : UserStats) :
    tallyScore ⟨u.correct + 1, u.wrong, u.attempted + 1⟩ = tallyScore u + MARK_CORRECT := by
  unfold tallyScore
  push_cast
  ring

theorem tallyScore_wrong (u : UserStats) :
    tallyScore ⟨u.correct, u.wrong + 1, u.attempted + 1⟩ = tallyScore u + MARK_WRONG := by
  unfold tallyScore
  push_cast
  ring

/-- The update `acceptState` writes into the tally of the answering
participant. -/
def statUpdate (u : UserStats) (right : Bool) : UserStats :=
  ⟨if right then u.correct + 1 else u.correct,
   if right then u.wrong else u.wrong + 1,
   u.attempted + 1⟩

theorem tallyScore_statUpdate (u : UserStats) (right : Bool) :
    tallyScore (statUpdate u right)
      = tallyScore u + (if right then MARK_CORRECT else MARK_WRONG) := by
  cases right
  · exact tallyScore_wrong u
  · exact tallyScore_right u

theorem acceptState_groupOf (bs : BotState) (cid : Int) (uid : Nat) (un : String)
    (st : GroupState) (q : Question) (sel : Int) :
    groupOf (acceptState bs cid uid un st q sel) cid =
      some ({ st with
        user_stats := setA st.user_stats uid
          (statUpdate (statsOfSt st uid) (decide (sel = (q.correct : Int)))),
        answers := st.answers ++ [uid] }) := by
  simp only [acceptState, statsOfSt, statUpdate]
  exact lookupA_setA_self ..

theorem acceptState_scoreOf (bs : BotState) (cid : Int) (uid : Nat) (un : String)
    (st : GroupState) (q : Question) (sel : Int) (u : Nat) :
    scoreOf (acceptState bs cid uid un st q sel) cid u =
      if u = uid
      then scoreOf bs cid u + (if sel = (q.correct : Int) then MARK_CORRECT else MARK_WRONG)
      else scoreOf bs cid u := by
  unfold scoreOf boardOf acceptState
  dsimp only
  rw [lookupA_setA_self]
  simp only [Option.getD_some]
  by_cases hu : u = uid
  · rw [if_pos hu, hu, lookupA_setA_self]
    cases hb : lookupA ((lookupA bs.leaderboard cid).getD []) uid <;>
      by_cases hr : sel = (q.correct : Int) <;> simp [hb, hr]
  · rw [if_neg hu, lookupA_setA_ne _ _ _ _ hu]

theorem acceptState_sessStats (bs : BotState) (cid : Int) (uid : Nat) (un : String)
    (st : GroupState) (q : Question) (sel : Int) (u : Nat) :
    sessStats (acceptState bs cid uid un st q sel) cid u =
      if u = uid
      then statUpdate (statsOfSt st uid) (decide (sel = (q.correct : Int)))
      else statsOfSt st u := by
  unfold sessStats
  rw [acceptState_groupOf]
  show statsOfSt _ u = _
  unfold statsOfSt
  dsimp only
  by_cases hu : u = uid
  · rw [if_pos hu, hu, lookupA_setA_self]
    rfl
  · rw [if_neg hu, lookupA_setA_ne _ _ _ _ hu]

/-- `acceptState` moves the score and the tally of the answering
participant together, leaving every other participant alone. -/
theorem acceptState_scoreInv (base : Nat → ℚ) (bs : BotState) (cid : Int) (uid : Nat)
    (un : String) (st : GroupState) (q : Question) (sel : Int)
    (hst : lookupA bs.group_state cid = some st)
    (h : ScoreInv base cid bs) :
    ScoreInv base cid (acceptState bs cid uid un st q sel) := by
  obtain ⟨h1, h2⟩ := h
  constructor
  · intro u
    have hsess0 : sessStats bs cid u = statsOfSt st u := by
      unfold sessStats
      rw [show groupOf bs cid = some st from hst]
    rw [acceptState_scoreOf, acceptState_sessStats]
    by_cases hu : u = uid
    · rw [if_pos hu, if_pos hu, tallyScore_statUpdate, h1 u, hsess0]
      by_cases hr : sel = (q.correct : Int) <;> simp [hr, hu] <;> ring
    · rw [if_neg hu, if_neg hu, h1 u, hsess0]
  · intro st2 hst2
    rw [acceptState_groupOf] at hst2
    rw [Option.some.injEq] at hst2
    subst hst2
    exact keys_nodup_setA (h2 st hst)

/-- Rejections do not move the state; acceptances preserve the conserved
relation: `handle_answer` preserves `ScoreInv`. -/
theorem scoreInv_handle (base : Nat → ℚ) (questions : List Question) (qtime : Nat)
    (bs : BotState) (cid : Int) (uid : Nat) (un : String) (qid sel : Int) (t : Nat)
    (h : ScoreInv base cid bs) :
    ScoreInv base cid (handle_answer questions qtime bs cid uid un qid sel t).1 := by
  by_cases hacc : (handle_answer questions qtime bs cid uid un qid sel t).2.isAccepted = true
  · obtain ⟨st, q, hst, -, heq⟩ :=
      handle_answer_accept_inv questions qtime bs cid uid un qid sel t hacc
    rw [heq]
    exact acceptState_scoreInv base bs cid uid un st q sel hst h
  · rcases handle_answer_frame questions qtime bs cid uid un qid sel t with h1 | h1
    · exact absurd h1 hacc
    · rw [h1]
      exact h

/-- `send_question` never touches scores or tallies. -/
theorem send_question_frame (b : BotState) (c : Int) (n : Nat) :
    (send_question b c n).leaderboard = b.leaderboard ∧
    ∀ c2, (groupOf (send_question b c n) c2).map GroupState.user_stats
      = (groupOf b c2).map GroupState.user_stats := by
  unfold send_question
  by_cases hf : (b.quizPaused || !b.quizRunning) = true
  · rw [if_pos hf]
    exact ⟨rfl, fun _ => rfl⟩
  · rw [if_neg hf]
    cases hlk : lookupA b.group_state c with
    | none => exact ⟨rfl, fun _ => rfl⟩
    | some st =>
      dsimp only
      by_cases h2 : st.order.length ≤ st.q_index
      · rw [if_pos h2]
        exact ⟨rfl, fun _ => rfl⟩
      · rw [if_neg h2]
        refine ⟨rfl, fun c2 => ?_⟩
        unfold groupOf
        by_cases hc : c2 = c
        · subst hc
          show (lookupA (setA b.group_state c2 _) c2).map _ = _
          rw [lookupA_setA_self, hlk]
          rfl
        · show (lookupA (setA b.group_state c _) c2).map _ = _
          rw [lookupA_setA_ne _ _ _ _ hc]

/-- `send_user_summaries` never touches scores or tallies. -/
theorem send_user_summaries_frame (b : BotState) (c : Int) (n : Nat) :
    (send_user_summaries b c n).leaderboard = b.leaderboard ∧
    ∀ c2, (groupOf (send_user_summaries b c n) c2).map GroupState.user_stats
      = (groupOf b c2).map GroupState.user_stats := by
  unfold send_user_summaries
  cases hlk : lookupA b.group_state c with
  | none => exact ⟨rfl, fun _ => rfl⟩
  | some st =>
    dsimp only
    by_cases hr : (session_records ((lookupA b.leaderboard c).getD []) st n).isEmpty
    · rw [if_pos hr]
      exact ⟨rfl, fun _ => rfl⟩
    · rw [if_neg hr]
      exact ⟨rfl, fun _ => rfl⟩

/-- `finish_question` never touches scores or tallies. -/
theorem finish_question_frame (bs : BotState) (c : Int) (t : Nat) :
    (finish_question bs c t).leaderboard = bs.leaderboard ∧
    ∀ c2, (groupOf (finish_question bs c t) c2).map GroupState.user_stats
      = (groupOf bs c2).map GroupState.user_stats := by
  unfold finish_question
  cases hlk : lookupA bs.group_state c with
  | none => exact ⟨rfl, fun _ => rfl⟩
  | some st =>
    dsimp only
    by_cases h2 : st.order.length ≤ st.q_index
    · rw [if_pos h2]
      exact ⟨rfl, fun _ => rfl⟩
    · rw [if_neg h2]
      have hmid : ∀ c2, (groupOf (⟨bs.quizRunning, bs.quizPaused,
          setA bs.group_state c (bumpQ st), bs.leaderboard, bs.results_history⟩ : BotState)
            c2).map GroupState.user_stats
          = (groupOf bs c2).map GroupState.user_stats := by
        intro c2
        unfold groupOf
        by_cases hc : c2 = c
        · subst hc
          show (lookupA (setA bs.group_state c2 _) c2).map _ = _
          rw [lookupA_setA_self, hlk]
          rfl
        · show (lookupA (setA bs.group_state c _) c2).map _ = _
          rw [lookupA_setA_ne _ _ _ _ hc]
      by_cases h3 : st.q_index + 1 < st.order.length
      · rw [if_pos h3]
        obtain ⟨hl, hg⟩ := send_question_frame
          ⟨bs.quizRunning, bs.quizPaused, setA bs.group_state c (bumpQ st),
           bs.leaderboard, bs.results_history⟩ c t
        exact ⟨hl, fun c2 => (hg c2).trans (hmid c2)⟩
      · rw [if_neg h3]
        obtain ⟨hl, hg⟩ := send_user_summaries_frame
          ⟨bs.quizRunning, bs.quizPaused, setA bs.group_state c (bumpQ st),
           bs.leaderboard, bs.results_history⟩ c t
        exact ⟨hl, fun c2 => (hg c2).trans (hmid c2)⟩

/-- The tick driver never touches scores or tallies. -/
theorem timeout_check_frame (qtime : Nat) (bs : BotState) (t : Nat) :
    (timeout_check qtime bs t).leaderboard = bs.leaderboard ∧
    ∀ c2, (groupOf (timeout_check qtime bs t) c2).map GroupState.user_stats
      = (groupOf bs c2).map GroupState.user_stats := by
  have hgen : ∀ (l : List (Int × GroupState)) (acc : BotState),
      (List.foldl (timeout_step qtime t) acc l).leaderboard = acc.leaderboard ∧
      ∀ c2, (groupOf (List.foldl (timeout_step qtime t) acc l) c2).map GroupState.user_stats
        = (groupOf acc c2).map GroupState.user_stats := by
    intro l
    induction l with
    | nil => exact fun acc => ⟨rfl, fun _ => rfl⟩
    | cons x xs ih =>
      intro acc
      have hstep : (timeout_step qtime t acc x).leaderboard = acc.leaderboard ∧
          ∀ c2, (groupOf (timeout_step qtime t acc x) c2).map GroupState.user_stats
            = (groupOf acc c2).map GroupState.user_stats := by
        unfold timeout_step
        repeat' split
        · exact ⟨rfl, fun _ => rfl⟩
        · exact ⟨rfl, fun _ => rfl⟩
        · exact finish_question_frame acc x.1 t
        · exact ⟨rfl, fun _ => rfl⟩
      obtain ⟨ihl, ihg⟩ := ih (timeout_step qtime t acc x)
      simp only [List.foldl_cons]
      exact ⟨ihl.trans hstep.1, fun c2 => (ihg c2).trans (hstep.2 c2)⟩
  exact hgen bs.group_state bs

/-- A state change that keeps the leaderboard and the tally map of the
room preserves `ScoreInv`. -/
theorem scoreInv_of_frame (base : Nat → ℚ) (cid : Int) (bs bs' : BotState)
    (hl : bs'.leaderboard = bs.leaderboard)
    (hg : (groupOf bs' cid).map GroupState.user_stats
      = (groupOf bs cid).map GroupState.user_stats)
    (h : ScoreInv base cid bs) : ScoreInv base cid bs' := by
  obtain ⟨h1, h2⟩ := h
  constructor
  · intro u
    have hscore : scoreOf bs' cid u = scoreOf bs cid u := by
      unfold scoreOf boardOf
      rw [hl]
    have hsess : sessStats bs' cid u = sessStats bs cid u := by
      unfold sessStats statsOfSt
      cases hg1 : groupOf bs' cid with
      | none =>
        rw [hg1] at hg
        cases hg2 : groupOf bs cid with
        | none => rfl
        | some st0 => rw [hg2] at hg; cases hg
      | some st1 =>
        rw [hg1] at hg
        cases hg2 : groupOf bs cid with
        | none => rw [hg2] at hg; cases hg
        | some st0 =>
          rw [hg2] at hg
          simp only [Option.map_some', Option.some.injEq] at hg
          dsimp only
          rw [hg]
    rw [hscore, hsess]
    exact h1 u
  · intro st' hst'
    rw [hst'] at hg
    cases hg2 : groupOf bs cid with
    | none => rw [hg2] at hg; cases hg
    | some st0 =>
      rw [hg2] at hg
      simp only [Option.map_some', Option.some.injEq] at hg
      rw [hg]
      exact h2 st0 hg2

/-- Every event of a session run preserves `ScoreInv`. -/
theorem scoreInv_runEvents (base : Nat → ℚ) (cid : Int) (questions : List Question)
    (qtime : Nat) :
    ∀ (es : List Event) (bs : BotState), ScoreInv base cid bs →
      ScoreInv base cid (runEvents questions qtime cid bs es) := by
  intro es
  induction es with
  | nil => exact fun bs h => h
  | cons e es ih =>
    intro bs h
    cases e with
    | answer uid un qid sel t =>
      exact ih _ (scoreInv_handle base questions qtime bs cid uid un qid sel t h)
    | tick t =>
      obtain ⟨hl, hg⟩ := timeout_check_frame qtime bs t
      exact ih _ (scoreInv_of_frame base cid bs _ hl (hg cid) h)

/-- In a key-distinct association list, every member is found by
lookup. -/
theorem lookupA_of_mem_nodup {l : List (Nat × UserStats)} {p : Nat × UserStats}
    (hnd : (l.map Prod.fst).Nodup) (hp : p ∈ l) : lookupA l p.1 = some p.2 := by
  induction l with
  | nil => cases hp
  | cons x t ih =>
    simp only [List.map_cons, List.nodup_cons] at hnd
    rcases List.mem_cons.mp hp with h | h
    · subst h
      cases p
      simp [lookupA]
    · have hne : x.1 ≠ p.1 := by
        intro hx
        exact hnd.1 (hx ▸ List.mem_map_of_mem Prod.fst h)
      cases x
      simp only [lookupA, if_neg hne]
      exact ih hnd.2 h

/-- C5: over any sequence of submissions and ticks processed from a
freshly started session, the finalize step appends exactly one Result
History record per participant of the tally; each such record carries
`sessionScore = correct * MARK_CORRECT + wrong * MARK_WRONG` exactly, and
the Score Table delta accumulated since the session start equals that
session score. -/
theorem score_conservation (questions : List Question) (qtime : Nat) (cid : Int)
    (bs0 : BotState) (st0 : GroupState) (es : List Event) (stN : GroupState) (now : Nat)
    (hst0 : groupOf bs0 cid = some st0)
    (hstats0 : st0.user_stats = [])
    (hstN : groupOf (runEvents questions qtime cid bs0 es) cid = some stN) :
    ((session_records (boardOf (runEvents questions qtime cid bs0 es) cid) stN now).map
        HistRecord.user_id = stN.user_stats.map Prod.fst) ∧
    (stN.user_stats.map Prod.fst).Nodup ∧
    (∀ r ∈ session_records (boardOf (runEvents questions qtime cid bs0 es) cid) stN now,
      r.score = tallyScore (statsOfSt stN r.user_id)) ∧
    (∀ u, scoreOf (runEvents questions qtime cid bs0 es) cid u
        = scoreOf bs0 cid u + tallyScore (statsOfSt stN u)) ∧
    (stN.q_index + 1 = stN.order.length →
      historyOf (finish_question (runEvents questions qtime cid bs0 es) cid now) cid
        = historyOf (runEvents questions qtime cid bs0 es) cid
          ++ session_records (boardOf (runEvents questions qtime cid bs0 es) cid) stN now) := by
  have hinv0 : ScoreInv (scoreOf bs0 cid) cid bs0 := by
    constructor
    · intro u
      have hss : sessStats bs0 cid u = ⟨0, 0, 0⟩ := by
        unfold sessStats
        rw [hst0]
        unfold statsOfSt
        dsimp only
        rw [hstats0]
        rfl
      rw [hss]
      unfold tallyScore
      push_cast
      ring
    · intro st hst
      rw [hst0] at hst
      rw [Option.some.injEq] at hst
      subst hst
      rw [hstats0]
      exact List.nodup_nil
  obtain ⟨hinv1, hinv2⟩ := scoreInv_runEvents (scoreOf bs0 cid) cid questions qtime es bs0 hinv0
  have hnd : (stN.user_stats.map Prod.fst).Nodup := hinv2 stN hstN
  refine ⟨?_, hnd, ?_, ?_, ?_⟩
  · unfold session_records
    rw [List.map_map]
    rfl
  · intro r hr
    unfold session_records at hr
    obtain ⟨p, hp, hpr⟩ := List.mem_map.mp hr
    have hlk := lookupA_of_mem_nodup hnd hp
    subst hpr
    show (p.2.correct : ℚ) * MARK_CORRECT + (p.2.wrong : ℚ) * MARK_WRONG = _
    unfold statsOfSt
    rw [show lookupA stN.user_stats p.1 = some p.2 from hlk]
    rfl
  · intro u
    have := hinv1 u
    rw [this]
    have hss : sessStats (runEvents questions qtime cid bs0 es) cid u = statsOfSt stN u := by
      unfold sessStats
      rw [hstN]
    rw [hss]
  · intro hlast
    exact (finish_question_last_spec (runEvents questions qtime cid bs0 es) stN cid now
      hstN hlast).2.1

/-! ### Concrete witnesses -/

/-- A fresh one-question session on `q1` for the conservation run. -/
def gsF : GroupState := ⟨[0], 0, 100, [], [], none, "Mixed", 0⟩

/-- Room 1 running the fresh `gsF` session with empty board and history. -/
def bsF : BotState := ⟨true, false, [(1, gsF)], [], []⟩

/-- One correct answer by participant 9 inside the time limit. -/
def esW : List Event := [.answer 9 "w" 1 0 120]

/-- The session state after `esW` on `bsF`. -/
def stNW : GroupState := ⟨[0], 0, 100, [9], [(9, ⟨1, 0, 1⟩)], none, "Mixed", 0⟩

/-- The session created by a successful `short` start on the two-question
bank without topic filter. -/
def stC7 : GroupState := ⟨[0, 1], 0, 100, [], [], none, "Mixed", 0⟩

theorem exactly_once_admission_witness :
    (submitSeq sampleQs 45 1 9 "w" 2 1 bsW [130, 131, 140]).2 =
      .accepted ((1 : Int) = (q2.correct : Int)) q2.explanation (pyGet q2.options 1)
        :: List.replicate 2 .duplicateAnswer ∧
    (submitSeq sampleQs 45 1 9 "w" 2 1 bsW [130, 131, 140]).2.countP
      (fun r => r.isAccepted) = 1 :=
  (exactly_once_admission sampleQs 45 bsW 1 9 "w" 2 1 gsW 1 q2 130 [131, 140]
    rfl rfl (by decide) rfl rfl rfl (by decide) (by decide) (by decide)).2

theorem submit_acceptance_effects_witness :
    (handle_answer sampleQs 45 bsW 1 9 "w" 2 1 130).2 =
        .accepted ((1 : Int) = (q2.correct : Int)) q2.explanation (pyGet q2.options 1) ∧
    (∃ st2, groupOf (handle_answer sampleQs 45 bsW 1 9 "w" 2 1 130).1 1 = some st2 ∧
        st2.answers = gsW.answers ++ [9] ∧
        statsOfSt st2 9 =
          ⟨(statsOfSt gsW 9).correct + (if (1 : Int) = (q2.correct : Int) then 1 else 0),
           (statsOfSt gsW 9).wrong + (if (1 : Int) = (q2.correct : Int) then 0 else 1),
           (statsOfSt gsW 9).attempted + 1⟩ ∧
        (∀ u2, u2 ≠ 9 → statsOfSt st2 u2 = statsOfSt gsW u2)) ∧
    lookupA (boardOf (handle_answer sampleQs 45 bsW 1 9 "w" 2 1 130).1 1) 9 =
      some ⟨"w", scoreOf bsW 1 9 +
        (if (1 : Int) = (q2.correct : Int) then MARK_CORRECT else MARK_WRONG)⟩ :=
  submit_acceptance_effects sampleQs 45 bsW 1 9 "w" 2 1 130 gsW 1 q2
    rfl rfl (by decide) (by decide) rfl rfl rfl (by decide)

theorem submit_reject_iff_amended_witness :
    ((handle_answer sampleQs 45 bsW 1 9 "w" 2 1 130).2.isAccepted = false ↔
      reject_condition sampleQs 45 bsW 1 9 2 130) ∧
    ((handle_answer sampleQs 45 bsW 1 9 "w" 2 1 130).2.isAccepted = false →
      (handle_answer sampleQs 45 bsW 1 9 "w" 2 1 130).1 = bsW) :=
  submit_reject_iff_amended sampleQs 45 bsW 1 9 "w" 2 1 130 (by
    intro st hst j hj
    have hst2 : (some gsW : Option GroupState) = some st := hst
    have h2 : gsW = st := Option.some.inj hst2
    subst h2
    have h3 : j = 1 := by simpa [gsW] using hj
    subst h3
    decide)

theorem finalize_retention_amended_witness :
    groupOf (finish_question bsRun 1 150) 1 = some (bumpQ gsRun) ∧
    historyOf (finish_question bsRun 1 150) 1
      = historyOf bsRun 1 ++ session_records (boardOf bsRun 1) gsRun 150 ∧
    (finish_question bsRun 1 150).quizRunning = bsRun.quizRunning ∧
    (finish_question bsRun 1 150).quizPaused = bsRun.quizPaused ∧
    (∀ bs2 c, bs2.quizRunning = true → (quiz_stop bs2 c).1.quizRunning = false) ∧
    (∀ bs2 c c', c' ≠ c → groupOf (quiz_stop bs2 c).1 c' = groupOf bs2 c') :=
  finalize_retention_amended bsRun gsRun 1 150 rfl rfl

theorem score_conservation_witness :
    ((session_records (boardOf (runEvents sampleQs 45 1 bsF esW) 1) stNW 200).map
        HistRecord.user_id = stNW.user_stats.map Prod.fst) ∧
    (stNW.user_stats.map Prod.fst).Nodup ∧
    (∀ r ∈ session_records (boardOf (runEvents sampleQs 45 1 bsF esW) 1) stNW 200,
      r.score = tallyScore (statsOfSt stNW r.user_id)) ∧
    (∀ u, scoreOf (runEvents sampleQs 45 1 bsF esW) 1 u
        = scoreOf bsF 1 u + tallyScore (statsOfSt stNW u)) ∧
    (stNW.q_index + 1 = stNW.order.length →
      historyOf (finish_question (runEvents sampleQs 45 1 bsF esW) 1 200) 1
        = historyOf (runEvents sampleQs 45 1 bsF esW) 1
          ++ session_records (boardOf (runEvents sampleQs 45 1 bsF esW) 1) stNW 200) :=
  score_conservation sampleQs 45 1 bsF gsF esW stNW 200 rfl rfl (by decide)

theorem windowed_leaderboard_correct_witness :
    (build_time_leaderboard bsH 2 (some 1) 1000000 = .noHistory ↔ historyOf bsH 2 = []) ∧
    (build_time_leaderboard bsH 1 (some 0) 1000000 = .nothingInWindow ↔
      (historyOf bsH 1 ≠ [] ∧ (historyOf bsH 1).filter (in_window 1000000 (some 0)) = [])) ∧
    (∃ l : List BoardEntry, List.Perm l ((List.foldl agg_step []
          ((historyOf bsH 1).filter (in_window 1000000 (some 1)))).map Prod.snd) ∧
      List.Sorted board_le l ∧ [(⟨"fresh", 2⟩ : BoardEntry)] = l.take 20) :=
  ⟨windowed_leaderboard_correct.1 bsH 2 (some 1) 1000000,
   windowed_leaderboard_correct.2.1 bsH 1 (some 0) 1000000,
   windowed_leaderboard_correct.2.2.2.1 bsH 1 (some 1) 1000000 _
     windowed_leaderboard_correct.2.2.2.2.2⟩

theorem start_order_properties_witness :
    stC7.order.length = min (desired_map "short") (candidates_for sampleQs none).length ∧
    stC7.order.Nodup ∧
    (∃ rest, id (candidates_for sampleQs none) = stC7.order ++ rest) ∧
    List.Perm (id (candidates_for sampleQs none)) (candidates_for sampleQs none) ∧
    desired_map "short" = 5 ∧ desired_map "long" = 15 ∧ desired_map "full" = 25 ∧
    ("short" ≠ "short" → "short" ≠ "long" → "short" ≠ "full" →
      desired_map "short" = desired_map "short") :=
  start_order_properties sampleQs id bs0 5 none "short" 100 stC7
    (fun l => List.Perm.refl l) (by decide) (by decide)

theorem start_failure_iff_witness :
    ((start_quiz sampleQs id bs0 5 none "short" 100).2 ≠ .started ↔
      (sampleQs = [] ∨
       (∃ st, groupOf bs0 5 = some st ∧ st.q_index < st.order.length) ∨
       (∃ t, (none : Option String) = some t ∧
         candidate_indices sampleQs t.trim.toLower = []))) ∧
    ((start_quiz sampleQs id bs0 5 none "short" 100).2 ≠ .started →
      (start_quiz sampleQs id bs0 5 none "short" 100).1 = bs0) ∧
    ((start_quiz sampleQs id bs0 5 none "short" 100).2 = .started →
      ∃ st2, groupOf (start_quiz sampleQs id bs0 5 none "short" 100).1 5 = some st2 ∧
        1 ≤ st2.order.length) :=
  start_failure_iff sampleQs id bs0 5 none "short" 100 (fun l => List.Perm.refl l)

theorem lifecycle_frame_amended_witness :
    (groupOf (quiz_pause bs2).1 2 = groupOf bs2 2 ∧
      groupOf (quiz_resume bs2).1 2 = groupOf bs2 2 ∧
      (quiz_pause bs2).1.leaderboard = bs2.leaderboard ∧
      (quiz_resume bs2).1.leaderboard = bs2.leaderboard ∧
      (quiz_pause bs2).1.results_history = bs2.results_history ∧
      (quiz_resume bs2).1.results_history = bs2.results_history) ∧
    ((2 : Int) ≠ 1 → groupOf (quiz_stop bs2 1).1 2 = groupOf bs2 2) ∧
    ((quiz_stop bs2 1).1.leaderboard = bs2.leaderboard ∧
      (quiz_stop bs2 1).1.results_history = bs2.results_history) ∧
    (handle_answer sampleQs 45 (quiz_pause bs2).1 2 9 "w" 2 1 130).2 = .sessionPaused ∧
    ((quiz_stop bs2 1).1.quizRunning = false ∧
      (bs2.quizRunning = true →
        timeout_check 45 (quiz_stop bs2 1).1 200 = (quiz_stop bs2 1).1)) :=
  ⟨lifecycle_frame_amended.1 bs2 2,
   fun h => lifecycle_frame_amended.2.1 bs2 1 2 h,
   lifecycle_frame_amended.2.2.1 bs2 1,
   lifecycle_frame_amended.2.2.2.1 sampleQs 45 bs2 2 gsW 9 "w" 2 1 130 rfl rfl (by decide),
   lifecycle_frame_amended.2.2.2.2.1 45 bs2 1 200⟩

theorem submit_no_range_check_witness :
    (handle_answer sampleQs 45 bsW 1 9 "w" 2 5 130).2 =
        .accepted false q2.explanation (pyGet q2.options 5) ∧
    (∃ st2, groupOf (handle_answer sampleQs 45 bsW 1 9 "w" 2 5 130).1 1 = some st2 ∧
        st2.answers = gsW.answers ++ [9] ∧
        statsOfSt st2 9 = ⟨(statsOfSt gsW 9).correct, (statsOfSt gsW 9).wrong + 1,
          (statsOfSt gsW 9).attempted + 1⟩) ∧
    lookupA (boardOf (handle_answer sampleQs 45 bsW 1 9 "w" 2 5 130).1 1) 9 =
      some ⟨"w", scoreOf bsW 1 9 + MARK_WRONG⟩ ∧
    (q2.options.length = 4 → 3 < (5 : Int) → pyGet q2.options 5 = none) :=
  submit_no_range_check sampleQs 45 bsW 1 9 "w" 2 5 130 gsW 1 q2
    rfl rfl (by decide) (by decide) rfl rfl rfl (by decide) (by decide) (Or.inr (by decide))

end DakuBot
